import Mathlib

/-!
Shallow embedding of the cupoch point-cloud reduction kernels
(src/unnamed/part_001: SelectByIndex, VoxelDownSample, UniformDownSample,
RemoveRadiusOutliers, RemoveStatisticalOutliers), of the strided/repeated
Thrust ranges (src/unnamed/part_002), of the dense-grid graph factory
(src/src/cupoch/geometry/graph_factory.cu) and of the odometry binding
(src/unnamed/part_005).

Device buffers of Eigen::Vector3f become lists of rational triples (float
arithmetic is idealized as exact rational arithmetic; the single operation
that leaves the rationals, Eigen normalize(), is represented over the reals
by the function unitize below).  Thrust primitives become the corresponding
list operations: transform is map, gather is an index map, sort_by_key is a
mergeSort by the lexicographic key order, reduce_by_key is a fold that merges
consecutive equal-key runs, copy_if over an enumeration is a filter over
List.range.
-/

namespace Cupoch

/-- Eigen::Vector3f idealized with exact rational coordinates. -/
abbrev Vec3 : Type := ℚ × ℚ × ℚ

/-- Componentwise division of a vector by an integer count
(devide_tuple_functor of src/unnamed/part_001 applied to one element). -/
def vdiv (v : Vec3) (c : ℕ) : Vec3 := (v.1 / c, v.2.1 / c, v.2.2 / c)

/-- Squared Euclidean distance of two points (the distance measure returned by
FLANN searches). -/
def sqDist (a b : Vec3) : ℚ :=
  (a.1 - b.1) * (a.1 - b.1) + (a.2.1 - b.2.1) * (a.2.1 - b.2.1) +
    (a.2.2 - b.2.2) * (a.2.2 - b.2.2)

/-- geometry::PointCloud: the three device buffers points_, normals_, colors_. -/
structure PointCloud where
  points : List Vec3
  normals : List Vec3
  colors : List Vec3
deriving DecidableEq

/-- Modelled from the spec: the spec describes normals as an optional
device-resident attribute buffer parallel to points.  HasNormals (declared in
the headers, body not under src/) holds when the cloud is non-empty and the
normal buffer matches the point buffer in length. -/
def PointCloud.HasNormals (pc : PointCloud) : Bool :=
  decide (pc.points.length > 0) && decide (pc.normals.length = pc.points.length)

/-- Modelled from the spec: colors as an optional attribute buffer parallel
to points, mirroring HasNormals. -/
def PointCloud.HasColors (pc : PointCloud) : Bool :=
  decide (pc.points.length > 0) && decide (pc.colors.length = pc.points.length)

/-- Modelled from the spec: ComputeMinBound (declared in
src/src/cupoch/geometry/geometry_utils.h, body not under src/) is the
componentwise minimum of the point buffer, the zero vector for an empty
cloud. -/
def minBound3 (pts : List Vec3) : Vec3 :=
  match pts with
  | [] => (0, 0, 0)
  | p :: rest =>
      rest.foldl (fun a b => (min a.1 b.1, min a.2.1 b.2.1, min a.2.2 b.2.2)) p

/-- Modelled from the spec: ComputeMaxBound, the componentwise maximum of the
point buffer, the zero vector for an empty cloud. -/
def maxBound3 (pts : List Vec3) : Vec3 :=
  match pts with
  | [] => (0, 0, 0)
  | p :: rest =>
      rest.foldl (fun a b => (max a.1 b.1, max a.2.1 b.2.1, max a.2.2 b.2.2)) p

/-- Geometry3D::GetMinBound for a point cloud. -/
def PointCloud.GetMinBound (pc : PointCloud) : Vec3 := minBound3 pc.points

/-- Geometry3D::GetMaxBound for a point cloud. -/
def PointCloud.GetMaxBound (pc : PointCloud) : Vec3 := maxBound3 pc.points

/-! ## SelectByIndex (src/unnamed/part_001, lines 38-124) -/

/-- thrust::gather: dst[i] = src[indices[i]].  A read past the end of the
source buffer is undefined in the source; the model totalizes it with the
zero vector. -/
def gatherList (src : List Vec3) (indices : List ℕ) : List Vec3 :=
  indices.map (fun i => src.getD i (0, 0, 0))

/-- SelectByIndexImpl: resize the output attribute buffers that the source
cloud carries to indices.size() and gather each buffer through the index
list. -/
def SelectByIndexImpl (src : PointCloud) (indices : List ℕ) : PointCloud :=
  { points := gatherList src.points indices,
    normals := if src.HasNormals then gatherList src.normals indices else [],
    colors := if src.HasColors then gatherList src.colors indices else [] }

/-- The merge recursion of thrust::set_difference, driven by a fuel counter
that bounds the recursion depth (every step consumes one element of one of
the two lists, so fuel = total length suffices); the fuel keeps the
definition structurally recursive. -/
def setDiffFuel : ℕ → List ℕ → List ℕ → List ℕ
  | 0, _, _ => []
  | _ + 1, [], _ => []
  | _ + 1, x :: xs, [] => x :: xs
  | n + 1, x :: xs, y :: ys =>
      if x < y then x :: setDiffFuel n xs (y :: ys)
      else if y < x then setDiffFuel n (x :: xs) ys
      else setDiffFuel n xs ys

/-- thrust::set_difference on two ascending ranges (multiset semantics: an
element of the second list cancels at most one equal element of the first). -/
def setDiff (xs ys : List ℕ) : List ℕ := setDiffFuel (xs.length + ys.length) xs ys

/-- PointCloud::SelectByIndex.  For invert = true the source allocates
inv_indices with n_out = points_.size() - indices.size() entries
(value-initialized to zero) and runs set_difference of the counting range
[0, n) against the sorted index list into that buffer; writes beyond the
buffer are out of bounds in the source and are modelled by truncation, and
slots the set_difference never reaches keep their zero initialization. -/
def selectByIndex (pc : PointCloud) (indices : List ℕ) (invert : Bool) :
    PointCloud :=
  if invert then
    let n_out := pc.points.length - indices.length
    let sorted_indices := indices.insertionSort (· ≤ ·)
    let diff := setDiff (List.range pc.points.length) sorted_indices
    let inv_indices := diff.take n_out ++ List.replicate (n_out - diff.length) 0
    SelectByIndexImpl pc inv_indices
  else SelectByIndexImpl pc indices

/-! ## UniformDownSample (src/unnamed/part_001, lines 251-291;
strided_range from src/unnamed/part_002) -/

/-- Number of elements of thrust::strided_range over a buffer of length n with
stride k: end() - begin() = (n + (k - 1)) / k. -/
def stridedEndCount (n k : ℕ) : ℕ := (n + (k - 1)) / k

/-- The elements thrust::strided_range enumerates: indices 0, k, 2k, ... -/
def stridedSample (l : List Vec3) (k : ℕ) : List Vec3 :=
  (List.range (stridedEndCount l.length k)).map (fun i => l.getD (k * i) (0, 0, 0))

/-- The output size the source allocates: points_.size() / every_k_points. -/
def uniformNOut (n k : ℕ) : ℕ := n / k

/-- PointCloud::UniformDownSample.  The source resizes each output buffer to
n / k and then copies the full strided range, which has ceil(n / k) elements,
into it; the copy past the buffer end is out of bounds in the source and is
modelled by truncation. -/
def uniformDownSample (pc : PointCloud) (every_k_points : ℕ) : PointCloud :=
  if every_k_points = 0 then ⟨[], [], []⟩
  else
    let n_out := uniformNOut pc.points.length every_k_points
    { points := (stridedSample pc.points every_k_points).take n_out,
      normals :=
        if pc.HasNormals then (stridedSample pc.normals every_k_points).take n_out
        else [],
      colors :=
        if pc.HasColors then (stridedSample pc.colors every_k_points).take n_out
        else [] }

/-! ## VoxelDownSample (src/unnamed/part_001, lines 65-76 and 126-249) -/

/-- Integer voxel key type (Eigen::Vector3i). -/
abbrev VoxelKey : Type := ℤ × ℤ × ℤ

/-- compute_key_functor: per coordinate, floor((pt - voxel_min_bound) /
voxel_size) cast to int. -/
def computeKey (voxel_min_bound : Vec3) (voxel_size : ℚ) (pt : Vec3) : VoxelKey :=
  (⌊(pt.1 - voxel_min_bound.1) / voxel_size⌋,
   ⌊(pt.2.1 - voxel_min_bound.2.1) / voxel_size⌋,
   ⌊(pt.2.2 - voxel_min_bound.2.2) / voxel_size⌋)

/-- Lexicographic order on voxel keys, the comparison thrust::sort_by_key uses
for Eigen::Vector3i keys. -/
def keyLe (a b : VoxelKey) : Prop :=
  a.1 < b.1 ∨ (a.1 = b.1 ∧ (a.2.1 < b.2.1 ∨ (a.2.1 = b.2.1 ∧ a.2.2 ≤ b.2.2)))

instance keyLe.decRel : DecidableRel keyLe := fun a b => by
  unfold keyLe
  infer_instance

instance keyLe.isTrans : IsTrans VoxelKey keyLe := by
  refine ⟨fun a b c hab hbc => ?_⟩
  unfold keyLe at *
  omega

instance keyLe.isTotal : IsTotal VoxelKey keyLe := by
  refine ⟨fun a b => ?_⟩
  unfold keyLe
  omega

instance keyLe.isAntisymm : IsAntisymm VoxelKey keyLe := by
  refine ⟨fun a b hab hba => ?_⟩
  unfold keyLe at *
  have h1 : a.1 = b.1 := by omega
  have h2 : a.2.1 = b.2.1 := by omega
  have h3 : a.2.2 = b.2.2 := by omega
  exact Prod.ext h1 (Prod.ext h2 h3)

/-- The key comparison lifted to key/value pairs for sort_by_key. -/
def pairKeyLe {α : Type} (x y : VoxelKey × α) : Prop := keyLe x.1 y.1

instance pairKeyLe.decRel {α : Type} : DecidableRel (pairKeyLe (α := α)) :=
  fun x y => inferInstanceAs (Decidable (keyLe x.1 y.1))

instance pairKeyLe.isTrans {α : Type} : IsTrans (VoxelKey × α) pairKeyLe :=
  ⟨fun _ _ _ hab hbc => Trans.trans (r := keyLe) hab hbc⟩

instance pairKeyLe.isTotal {α : Type} : IsTotal (VoxelKey × α) pairKeyLe :=
  ⟨fun a b => IsTotal.total (r := keyLe) a.1 b.1⟩

/-- The padded lower voxel bound: GetMinBound() - voxel_size / 2 per
coordinate. -/
def voxelMinBound (pc : PointCloud) (voxel_size : ℚ) : Vec3 :=
  (pc.GetMinBound.1 - voxel_size / 2,
   pc.GetMinBound.2.1 - voxel_size / 2,
   pc.GetMinBound.2.2 - voxel_size / 2)

/-- The padded upper voxel bound: GetMaxBound() + voxel_size / 2 per
coordinate. -/
def voxelMaxBound (pc : PointCloud) (voxel_size : ℚ) : Vec3 :=
  (pc.GetMaxBound.1 + voxel_size / 2,
   pc.GetMaxBound.2.1 + voxel_size / 2,
   pc.GetMaxBound.2.2 + voxel_size / 2)

/-- std::numeric_limits of int, max(): 2^31 - 1. -/
def intMax : ℚ := 2147483647

/-- Eigen maxCoeff of a 3-vector. -/
def maxCoeff3 (v : Vec3) : ℚ := max v.1 (max v.2.1 v.2.2)

/-- The size guard of VoxelDownSample: voxel_size * INT_MAX smaller than the
largest coordinate span of the padded bounds. -/
def voxelSizeTooSmall (pc : PointCloud) (voxel_size : ℚ) : Bool :=
  decide (voxel_size * intMax <
    maxCoeff3
      ((voxelMaxBound pc voxel_size).1 - (voxelMinBound pc voxel_size).1,
       (voxelMaxBound pc voxel_size).2.1 - (voxelMinBound pc voxel_size).2.1,
       (voxelMaxBound pc voxel_size).2.2 - (voxelMinBound pc voxel_size).2.2))

/-- The voxel key of every point of the cloud. -/
def voxelKeys (pc : PointCloud) (voxel_size : ℚ) : List VoxelKey :=
  pc.points.map (computeKey (voxelMinBound pc voxel_size) voxel_size)

/-- thrust::reduce_by_key over a key/value sequence with the add_tuple_functor
as reduction and a constant-1 iterator zipped into the values: consecutive
runs of equal keys are merged, the values summed and the run length counted. -/
def reduceByKey {α : Type} [Add α] : List (VoxelKey × α) → List (VoxelKey × α × ℕ)
  | [] => []
  | (k, v) :: rest =>
      match reduceByKey rest with
      | [] => [(k, v, 1)]
      | (k2, v2, c2) :: t =>
          if k = k2 then (k, v + v2, c2 + 1) :: t
          else (k, v, 1) :: (k2, v2, c2) :: t

/-- The distinct keys of a key sequence in which equal keys are consecutive
(the key column reduce_by_key emits). -/
def uniqKeys : List VoxelKey → List VoxelKey
  | [] => []
  | k :: ks =>
      match uniqKeys ks with
      | [] => [k]
      | k2 :: t => if k = k2 then k2 :: t else k :: k2 :: t

/-- thrust::sort_by_key of a value sequence by voxel key (a stable insertion
sort; any sort by the key order yields the same reduced per-cell output). -/
def sortByKey {α : Type} (l : List (VoxelKey × α)) : List (VoxelKey × α) :=
  l.insertionSort pairKeyLe

/-- PointCloud::VoxelDownSample.  Guard branches return the fresh empty cloud.
Otherwise the points (with normals and colors when present) are sorted by
voxel key, reduced by key into per-cell sums with counts, and divided by the
counts.  In the branches with normals the source additionally applies Eigen
normalize() to each divided normal (normalize_and_devide_tuple_functor); that
final step maps out of the rationals, so the normals buffer of this model
holds the per-cell means and the float buffer the source stores is unitize of
each entry (see unitize and storedNormals below). -/
def voxelDownSample (pc : PointCloud) (voxel_size : ℚ) : PointCloud :=
  if voxel_size ≤ 0 then ⟨[], [], []⟩
  else if voxelSizeTooSmall pc voxel_size then ⟨[], [], []⟩
  else
    let keys := voxelKeys pc voxel_size
    if pc.HasNormals then
      if pc.HasColors then
        let red := reduceByKey (sortByKey (keys.zip (pc.points.zip (pc.normals.zip pc.colors))))
        { points := red.map (fun e => vdiv e.2.1.1 e.2.2),
          normals := red.map (fun e => vdiv e.2.1.2.1 e.2.2),
          colors := red.map (fun e => vdiv e.2.1.2.2 e.2.2) }
      else
        let red := reduceByKey (sortByKey (keys.zip (pc.points.zip pc.normals)))
        { points := red.map (fun e => vdiv e.2.1.1 e.2.2),
          normals := red.map (fun e => vdiv e.2.1.2 e.2.2),
          colors := [] }
    else
      if pc.HasColors then
        let red := reduceByKey (sortByKey (keys.zip (pc.points.zip pc.colors)))
        { points := red.map (fun e => vdiv e.2.1.1 e.2.2),
          normals := [],
          colors := red.map (fun e => vdiv e.2.1.2 e.2.2) }
      else
        let red := reduceByKey (sortByKey (keys.zip pc.points))
        { points := red.map (fun e => vdiv e.2.1 e.2.2),
          normals := [],
          colors := [] }

/-- Eigen normalize() of a rational vector, over the reals: division by the
Euclidean norm. -/
noncomputable def unitize (v : Vec3) : ℝ × ℝ × ℝ :=
  ((v.1 : ℝ) / Real.sqrt ((v.1 : ℝ) ^ 2 + (v.2.1 : ℝ) ^ 2 + (v.2.2 : ℝ) ^ 2),
   (v.2.1 : ℝ) / Real.sqrt ((v.1 : ℝ) ^ 2 + (v.2.1 : ℝ) ^ 2 + (v.2.2 : ℝ) ^ 2),
   (v.2.2 : ℝ) / Real.sqrt ((v.1 : ℝ) ^ 2 + (v.2.1 : ℝ) ^ 2 + (v.2.2 : ℝ) ^ 2))

/-- The float normal buffer the source stores for a VoxelDownSample output:
Eigen normalize() applied to each per-cell mean held by the model. -/
noncomputable def storedNormals (pc : PointCloud) : List (ℝ × ℝ × ℝ) :=
  pc.normals.map unitize

/-- The occupied voxel cells: the distinct keys, in the sorted order in which
the downsampled cloud emits one output element per cell. -/
def occupiedCells (pc : PointCloud) (voxel_size : ℚ) : List VoxelKey :=
  uniqKeys ((voxelKeys pc voxel_size).insertionSort keyLe)

/-- Number of points of the cloud falling in voxel cell k. -/
def cellCount (pc : PointCloud) (voxel_size : ℚ) (k : VoxelKey) : ℕ :=
  (voxelKeys pc voxel_size).countP (fun x => x = k)

/-- The points of the cloud falling in voxel cell k. -/
def cellPoints (pc : PointCloud) (voxel_size : ℚ) (k : VoxelKey) : List Vec3 :=
  (((voxelKeys pc voxel_size).zip pc.points).filter (fun e => e.1 = k)).map (fun e => e.2)

/-- The normals of the points falling in voxel cell k. -/
def cellNormals (pc : PointCloud) (voxel_size : ℚ) (k : VoxelKey) : List Vec3 :=
  (((voxelKeys pc voxel_size).zip pc.normals).filter (fun e => e.1 = k)).map (fun e => e.2)

/-- The colors of the points falling in voxel cell k. -/
def cellColors (pc : PointCloud) (voxel_size : ℚ) (k : VoxelKey) : List Vec3 :=
  (((voxelKeys pc voxel_size).zip pc.colors).filter (fun e => e.1 = k)).map (fun e => e.2)

/-- Arithmetic mean of the points of voxel cell k. -/
def cellPointMean (pc : PointCloud) (voxel_size : ℚ) (k : VoxelKey) : Vec3 :=
  vdiv (cellPoints pc voxel_size k).sum (cellCount pc voxel_size k)

/-- Arithmetic mean of the normals of voxel cell k (before the final Eigen
normalize() step). -/
def cellNormalMean (pc : PointCloud) (voxel_size : ℚ) (k : VoxelKey) : Vec3 :=
  vdiv (cellNormals pc voxel_size k).sum (cellCount pc voxel_size k)

/-- Arithmetic mean of the colors of voxel cell k. -/
def cellColorMean (pc : PointCloud) (voxel_size : ℚ) (k : VoxelKey) : Vec3 :=
  vdiv (cellColors pc voxel_size k).sum (cellCount pc voxel_size k)

/-! ## RemoveRadiusOutliers (src/unnamed/part_001, lines 293-328) -/

/-- Modelled from the spec: KDTreeFlann::SearchRadius (kdtree_flann.h is
included but its body is not under src/).  The spec lists nearest-neighbor
search among the spatial algorithms; a radius search with capacity cap
returns, for a query point, up to cap hits within the search radius (FLANN
reports squared distances and pads unused slots with index -1).  The source
only consumes the number of valid (index >= 0) slots per query, which is
min cap (number of points within the radius). -/
def radiusHits (pts : List Vec3) (radius : ℚ) (cap : ℕ) (q : Vec3) : ℕ :=
  min cap (pts.countP (fun p => sqDist p q ≤ radius * radius))

/-- PointCloud::RemoveRadiusOutliers.  Modelled from the spec: on
nb_points < 1 or search_radius <= 0 the source calls utility::LogError,
which reports the error and aborts the call instead of filtering; the model
returns an error value.  Otherwise each point is kept when its radius search
with capacity nb_points + 1 yields strictly more than nb_points valid hits. -/
def removeRadiusOutliers (pc : PointCloud) (nb_points : ℕ) (search_radius : ℚ) :
    Except String (PointCloud × List ℕ) :=
  if nb_points < 1 ∨ search_radius ≤ 0 then
    Except.error "[RemoveRadiusOutliers] Illegal input parameters"
  else
    let counts := pc.points.map (radiusHits pc.points search_radius (nb_points + 1))
    let indices :=
      (List.range pc.points.length).filter (fun i => nb_points < counts.getD i 0)
    Except.ok (selectByIndex pc indices false, indices)

/-! ## RemoveStatisticalOutliers (src/unnamed/part_001, lines 93-101, 330-414) -/

/-- The invalidity test the reduction lambda applies to a distance:
isinf(d) || d < 0.0 (infinities do not arise in the rational model). -/
def isInvalidDist (d : ℚ) : Bool := decide (d < 0)

/-- Modelled from the spec: KDTreeFlann::SearchKNN (body not under src/).
The spec lists nearest-neighbor search among the spatial algorithms; a
k-nearest-neighbor search returns for each query the k smallest squared
distances to cloud points in ascending order, the query point itself
included; FLANN pads unfilled slots, which the consuming reduction discards
through the isinf-or-negative test, modelled by a -1 pad. -/
def knnDists (pts : List Vec3) (k : ℕ) (q : Vec3) : List ℚ :=
  ((pts.map (fun p => sqDist q p)).insertionSort (· ≤ ·)).take k ++
    List.replicate (k - pts.length) (-1)

/-- The per-point reduction of RemoveStatisticalOutliers: sum and count the
valid distances among the point's nb_neighbors KNN slots, average them, and
mark a point with no valid slot with -1. -/
def avgDistance (pts : List Vec3) (k : ℕ) (q : Vec3) : ℚ :=
  let ds := (knnDists pts k q).filter (fun d => !isInvalidDist d)
  if 0 < ds.length then ds.sum / ds.length else -1

/-- The avg_distances buffer: one averaged KNN distance per cloud point. -/
def avgDistances (pc : PointCloud) (nb_neighbors : ℕ) : List ℚ :=
  pc.points.map (avgDistance pc.points nb_neighbors)

/-- valid_distances: the number of entries with avg >= 0. -/
def validCount (ds : List ℚ) : ℕ := ds.countP (fun x => 0 ≤ x)

/-- The transform_reduce summand max(x, 0) accumulated into cloud_mean. -/
def distSum (ds : List ℚ) : ℚ := (ds.map (fun x => max x 0)).sum

/-- cloud_mean: the mean of the valid averaged distances. -/
def cloudMean (ds : List ℚ) : ℚ := distSum ds / validCount ds

/-- sq_sum as the source computes it: (x - mean)^2 summed over the strictly
positive averaged distances only. -/
def sqSumCode (ds : List ℚ) (m : ℚ) : ℚ :=
  (ds.map (fun x => if 0 < x then (x - m) * (x - m) else 0)).sum

/-- sq_sum as the claim words it: (x - mean)^2 summed over all valid
(non-negative) averaged distances. -/
def sqSumClaim (ds : List ℚ) (m : ℚ) : ℚ :=
  (ds.map (fun x => if 0 ≤ x then (x - m) * (x - m) else 0)).sum

/-- Decides 0 < d and d < m + ratio * sqrt s by rational arithmetic (see
checkDistTh_iff): check_distance_threshold_functor with the threshold
m + ratio * std_dev and std_dev = sqrt s. -/
def checkDistTh (m ratio s d : ℚ) : Bool :=
  decide (0 < d) && (decide (d < m) || decide ((d - m) * (d - m) < ratio * ratio * s))

/-- PointCloud::RemoveStatisticalOutliers.  Modelled from the spec for the
parameter guard (utility::LogError aborts the call) and SearchKNN; the rest
transliterates the source: average KNN distances per point, mean and
Bessel-corrected deviation over the valid averages, and the distance
threshold filter over the enumerated averages. -/
def removeStatisticalOutliers (pc : PointCloud) (nb_neighbors : ℕ) (std_ratio : ℚ) :
    Except String (PointCloud × List ℕ) :=
  if nb_neighbors < 1 ∨ std_ratio ≤ 0 then
    Except.error "[RemoveStatisticalOutliers] Illegal input parameters"
  else if pc.points = [] then Except.ok (⟨[], [], []⟩, [])
  else
    let ds := avgDistances pc nb_neighbors
    let v := validCount ds
    if v = 0 then Except.ok (⟨[], [], []⟩, [])
    else
      let m := cloudMean ds
      let s := sqSumCode ds m / ((v - 1 : ℕ) : ℚ)
      let indices :=
        (List.range pc.points.length).filter
          (fun i => checkDistTh m std_ratio s (ds.getD i (-1)))
      Except.ok (selectByIndex pc indices false, indices)

/-- The index list the C3 claim describes, with its std_dev taken over all
valid (non-negative) averaged distances: kept are the i with
0 < d_i < mean + std_ratio * sqrt(sqSumClaim / (valid - 1)). -/
def claimKeptStatistical (pc : PointCloud) (nb_neighbors : ℕ) (std_ratio : ℚ) :
    List ℕ :=
  let ds := avgDistances pc nb_neighbors
  let v := validCount ds
  let m := cloudMean ds
  let s := sqSumClaim ds m / ((v - 1 : ℕ) : ℚ)
  (List.range pc.points.length).filter
    (fun i => checkDistTh m std_ratio s (ds.getD i (-1)))

/-! ## Graph factory (src/src/cupoch/geometry/graph_factory.cu) -/

/-- 2-component vector for the Dim = 2 instantiation. -/
abbrev Vec2 : Type := ℚ × ℚ

/-- The 26 neighbor offsets of the 3D dense grid (voxel_offset). -/
def voxelOffsets3 : List (ℤ × ℤ × ℤ) :=
  [(1, 0, 0), (-1, 0, 0), (0, 1, 0), (0, -1, 0), (0, 0, 1),
   (0, 0, -1), (1, 1, 0), (1, -1, 0), (-1, 1, 0), (-1, -1, 0),
   (1, 0, 1), (1, 0, -1), (-1, 0, 1), (-1, 0, -1), (0, 1, 1),
   (0, 1, -1), (0, -1, 1), (0, -1, -1), (1, 1, 1), (-1, -1, -1),
   (-1, 1, 1), (1, -1, -1), (1, -1, 1), (-1, 1, -1), (-1, -1, 1),
   (1, 1, -1)]

/-- The 8 neighbor offsets of the 2D dense grid (voxel_offset_2d). -/
def voxelOffsets2 : List (ℤ × ℤ) :=
  [(1, 0), (-1, 0), (0, 1), (0, -1), (1, 1), (1, -1), (-1, 1), (-1, -1)]

/-- Graph of Dim 3: grid points and index-pair lines.  ConstructGraph (body
not under src/) only builds the adjacency offsets of the graph; it is
modelled as the identity on the point and line buffers. -/
structure Graph3 where
  points : List Vec3
  lines : List (ℤ × ℤ)
deriving DecidableEq

/-- Graph of Dim 2. -/
structure Graph2 where
  points : List Vec2
  lines : List (ℤ × ℤ)
deriving DecidableEq

/-- The per-axis steps: (max_bound - min_bound) / resolutions. -/
def gridSteps3 (minb maxb : Vec3) (res : ℕ × ℕ × ℕ) : Vec3 :=
  ((maxb.1 - minb.1) / (res.1 : ℚ),
   (maxb.2.1 - minb.2.1) / (res.2.1 : ℚ),
   (maxb.2.2 - minb.2.2) / (res.2.2 : ℚ))

/-- create_dense_grid_points_functor of Dim 3: decode idx into grid
coordinates and place min_bound + coordinate * step per axis. -/
def densePoint3 (res : ℕ × ℕ × ℕ) (minb steps : Vec3) (idx : ℕ) : Vec3 :=
  let x := idx / (res.2.1 * res.2.2)
  let yz := idx % (res.2.1 * res.2.2)
  let y := yz / res.2.2
  let z := yz % res.2.2
  (minb.1 + (x : ℚ) * steps.1,
   minb.2.1 + (y : ℚ) * steps.2.1,
   minb.2.2 + (z : ℚ) * steps.2.2)

/-- The row-major encoding of 3D grid coordinates the line functor uses. -/
def gridIndex3 (res : ℕ × ℕ × ℕ) (x y z : ℤ) : ℤ :=
  x * (res.2.1 : ℤ) * (res.2.2 : ℤ) + y * (res.2.2 : ℤ) + z

/-- create_dense_grid_lines_functor of Dim 3: decode idx into a grid cell and
one of 26 offsets, emit the encoded (source, neighbor) pair, or the sentinel
(-1, -1) when the neighbor leaves the grid. -/
def denseLine3 (res : ℕ × ℕ × ℕ) (idx : ℕ) : ℤ × ℤ :=
  let x := idx / (res.2.1 * res.2.2 * 26)
  let yzk := idx % (res.2.1 * res.2.2 * 26)
  let y := yzk / (res.2.2 * 26)
  let zk := yzk % (res.2.2 * 26)
  let z := zk / 26
  let k := zk % 26
  let off := voxelOffsets3.getD k (0, 0, 0)
  let gx := (x : ℤ) + off.1
  let gy := (y : ℤ) + off.2.1
  let gz := (z : ℤ) + off.2.2
  if gx < 0 ∨ (res.1 : ℤ) ≤ gx ∨ gy < 0 ∨ (res.2.1 : ℤ) ≤ gy ∨
      gz < 0 ∨ (res.2.2 : ℤ) ≤ gz then
    (-1, -1)
  else (gridIndex3 res (x : ℤ) (y : ℤ) (z : ℤ), gridIndex3 res gx gy gz)

/-- Graph of Dim 3, CreateFromAxisAlignedBoundingBox: resolutions.prod() grid
points; all cell/offset candidate lines; thrust::remove_if drops the
sentinel lines whose first entry is negative. -/
def createFromAABB3 (minb maxb : Vec3) (res : ℕ × ℕ × ℕ) : Graph3 :=
  let n := res.1 * res.2.1 * res.2.2
  { points := (List.range n).map (densePoint3 res minb (gridSteps3 minb maxb res)),
    lines :=
      ((List.range (n * 26)).map (denseLine3 res)).filter (fun l => !decide (l.1 < 0)) }

/-- The per-axis steps of the 2D grid. -/
def gridSteps2 (minb maxb : Vec2) (res : ℕ × ℕ) : Vec2 :=
  ((maxb.1 - minb.1) / (res.1 : ℚ), (maxb.2 - minb.2) / (res.2 : ℚ))

/-- create_dense_grid_points_functor of Dim 2. -/
def densePoint2 (res : ℕ × ℕ) (minb steps : Vec2) (idx : ℕ) : Vec2 :=
  let x := idx / res.2
  let y := idx % res.2
  (minb.1 + (x : ℚ) * steps.1, minb.2 + (y : ℚ) * steps.2)

/-- The row-major encoding of 2D grid coordinates. -/
def gridIndex2 (res : ℕ × ℕ) (x y : ℤ) : ℤ := x * (res.2 : ℤ) + y

/-- create_dense_grid_lines_functor of Dim 2 with the 8 offsets. -/
def denseLine2 (res : ℕ × ℕ) (idx : ℕ) : ℤ × ℤ :=
  let x := idx / (res.2 * 8)
  let yk := idx % (res.2 * 8)
  let y := yk / 8
  let k := yk % 8
  let off := voxelOffsets2.getD k (0, 0)
  let gx := (x : ℤ) + off.1
  let gy := (y : ℤ) + off.2
  if gx < 0 ∨ (res.1 : ℤ) ≤ gx ∨ gy < 0 ∨ (res.2 : ℤ) ≤ gy then (-1, -1)
  else (gridIndex2 res (x : ℤ) (y : ℤ), gridIndex2 res gx gy)

/-- Graph of Dim 2, CreateFromAxisAlignedBoundingBox. -/
def createFromAABB2 (minb maxb : Vec2) (res : ℕ × ℕ) : Graph2 :=
  let n := res.1 * res.2
  { points := (List.range n).map (densePoint2 res minb (gridSteps2 minb maxb res)),
    lines :=
      ((List.range (n * 8)).map (denseLine2 res)).filter (fun l => !decide (l.1 < 0)) }

/-! ## Odometry binding (src/unnamed/part_005, lines 170-188) -/

/-- Modelled from the spec: a single-channel image buffer. -/
structure Image where
  width : ℕ
  height : ℕ
  data : List ℚ
deriving DecidableEq

/-- Modelled from the spec: an RGB-D frame, a color image paired with a depth
image. -/
structure RGBDImage where
  color : Image
  depth : Image
deriving DecidableEq

/-- Modelled from the spec: pinhole camera intrinsic parameters. -/
structure PinholeCameraIntrinsic where
  width : ℕ
  height : ℕ
  fx : ℚ
  fy : ℚ
  cx : ℚ
  cy : ℚ
deriving DecidableEq

/-- 4x4 rational matrix (Eigen::Matrix4f idealized). -/
abbrev Matrix4 : Type := Fin 4 → Fin 4 → ℚ

/-- 6x6 rational matrix (Eigen::Matrix6f idealized). -/
abbrev Matrix6 : Type := Fin 6 → Fin 6 → ℚ

/-- The Jacobian term choices of the binding. -/
inductive RGBDOdometryJacobian where
  | fromColorTerm : RGBDOdometryJacobian
  | fromHybridTerm : RGBDOdometryJacobian
deriving DecidableEq

/-- Modelled from the spec: the odometry options of the binding. -/
structure OdometryOption where
  iterationNumberPerPyramidLevel : List ℕ
  maxDepthDiff : ℚ
  minDepth : ℚ
  maxDepth : ℚ
deriving DecidableEq

/-- Modelled from the spec: odometry::ComputeRGBDOdometry (body not under
src/; only the binding is): frame-to-frame rigid motion estimation from an
RGB-D image pair, producing the triple (is_success, 4x4 motion matrix, 6x6
information matrix).  The estimation algorithm itself is absent from the
sources, so only the interface is modelled: the estimate defaults to the
initial motion guess with a failure flag and a zero information matrix. -/
def ComputeRGBDOdometry (_source _target : RGBDImage)
    (_intrinsic : PinholeCameraIntrinsic) (odo_init : Matrix4)
    (_jacobian : RGBDOdometryJacobian) (_option : OdometryOption) :
    Bool × Matrix4 × Matrix6 :=
  (false, odo_init, fun _ _ => 0)

/-! ## The this-object across the const reduction calls (frame model)

Every thrust call of the five reduction operations writes through iterators
of a freshly allocated output cloud or of call-local copies (sorted_points,
sorted_normals, sorted_colors, keys, counts, indices); none targets the
buffers of the const input cloud.  The *St forms return the input cloud as
the call leaves it together with the call's result. -/

/-- SelectByIndex with the state of the input cloud after the call. -/
def selectByIndexSt (pc : PointCloud) (indices : List ℕ) (invert : Bool) :
    PointCloud × PointCloud :=
  (pc, selectByIndex pc indices invert)

/-- VoxelDownSample with the state of the input cloud after the call. -/
def voxelDownSampleSt (pc : PointCloud) (voxel_size : ℚ) :
    PointCloud × PointCloud :=
  (pc, voxelDownSample pc voxel_size)

/-- UniformDownSample with the state of the input cloud after the call. -/
def uniformDownSampleSt (pc : PointCloud) (every_k_points : ℕ) :
    PointCloud × PointCloud :=
  (pc, uniformDownSample pc every_k_points)

/-- RemoveRadiusOutliers with the state of the input cloud after the call. -/
def removeRadiusOutliersSt (pc : PointCloud) (nb_points : ℕ)
    (search_radius : ℚ) :
    PointCloud × Except String (PointCloud × List ℕ) :=
  (pc, removeRadiusOutliers pc nb_points search_radius)

/-- RemoveStatisticalOutliers with the state of the input cloud after the
call. -/
def removeStatisticalOutliersSt (pc : PointCloud) (nb_neighbors : ℕ)
    (std_ratio : ℚ) :
    PointCloud × Except String (PointCloud × List ℕ) :=
  (pc, removeStatisticalOutliers pc nb_neighbors std_ratio)

/-! ## Theorems -/

/-- C5: compute_rgbd_odometry takes a source RGBD image, a target RGBD image,
camera intrinsics, an initial 4x4 motion estimate, a Jacobian term and
options, and returns a triple (is_success, 4x4 rigid motion matrix, 6x6
information matrix). -/
theorem computeRGBDOdometry_interface (source target : RGBDImage)
    (intrinsic : PinholeCameraIntrinsic) (odo_init : Matrix4)
    (jacobian : RGBDOdometryJacobian) (opt : OdometryOption) :
    ∃ (is_success : Bool) (motion : Matrix4) (information : Matrix6),
      ComputeRGBDOdometry source target intrinsic odo_init jacobian opt =
        (is_success, motion, information) :=
  ⟨false, odo_init, fun _ _ => 0, rfl⟩

/-- C6: none of the five reduction operations modifies the input cloud's
point, normal or color buffers; each returns a freshly constructed output and
leaves the this-object's buffers element-for-element unchanged. -/
theorem reductionOps_input_unchanged (pc : PointCloud) (indices : List ℕ)
    (invert : Bool) (voxel_size : ℚ) (every_k_points nb_points nb_neighbors : ℕ)
    (search_radius std_ratio : ℚ) :
    (selectByIndexSt pc indices invert).1 = pc ∧
    (voxelDownSampleSt pc voxel_size).1 = pc ∧
    (uniformDownSampleSt pc every_k_points).1 = pc ∧
    (removeRadiusOutliersSt pc nb_points search_radius).1 = pc ∧
    (removeStatisticalOutliersSt pc nb_neighbors std_ratio).1 = pc :=
  ⟨rfl, rfl, rfl, rfl, rfl⟩

/-- C8: VoxelDownSample rejects a non-positive voxel_size, and a voxel_size
whose product with INT_MAX is below the largest padded coordinate span, by
returning the empty cloud without raising, leaving the input unchanged. -/
theorem voxelDownSample_guard_spec (pc : PointCloud) (voxel_size : ℚ)
    (h : voxel_size ≤ 0 ∨ voxelSizeTooSmall pc voxel_size = true) :
    voxelDownSample pc voxel_size = ⟨[], [], []⟩ ∧
      (voxelDownSampleSt pc voxel_size).1 = pc := by
  refine ⟨?_, rfl⟩
  unfold voxelDownSample
  rcases h with h | h
  · simp [h]
  · by_cases h0 : voxel_size ≤ 0 <;> simp [h0, h]

/-- Witness for C8 at a concrete cloud and voxel_size = -1. -/
theorem voxelDownSample_guard_witness :
    ((-1 : ℚ) ≤ 0 ∨ voxelSizeTooSmall ⟨[(1, 2, 3)], [], []⟩ (-1) = true) ∧
      (voxelDownSample ⟨[(1, 2, 3)], [], []⟩ (-1) = ⟨[], [], []⟩ ∧
        (voxelDownSampleSt ⟨[(1, 2, 3)], [], []⟩ (-1)).1 = ⟨[(1, 2, 3)], [], []⟩) :=
  ⟨Or.inl (by norm_num),
    voxelDownSample_guard_spec ⟨[(1, 2, 3)], [], []⟩ (-1) (Or.inl (by norm_num))⟩

/-- The concrete five-point cloud of the C9 analysis. -/
def pcC9 : PointCloud :=
  ⟨[(0, 0, 0), (1, 0, 0), (2, 0, 0), (3, 0, 0), (4, 0, 0)], [], []⟩

/-- C9: on 5 points with every_k_points = 2 the output buffer is resized to
floor(5 / 2) = 2 elements holding the strided points 0 and 2, but the strided
range the source copies from has ceil(5 / 2) = 3 elements, so thrust::copy
writes one element past the end of the output buffer. -/
theorem uniformDownSample_overflow :
    uniformNOut 5 2 = 2 ∧ stridedEndCount 5 2 = 3 ∧
      (uniformDownSample pcC9 2).points = [(0, 0, 0), (2, 0, 0)] ∧
      stridedSample pcC9.points 2 = [(0, 0, 0), (2, 0, 0), (4, 0, 0)] := by
  decide

/-- The concrete cloud of the C7 counterexample: one point with one normal. -/
def pcC7 : PointCloud := ⟨[(0, 0, 0)], [(1, 0, 0)], []⟩

/-- C7 counterexample: selecting the empty index list from a cloud that
HasNormals yields an output whose normals buffer is empty, refuting the
claimed equivalence between a non-empty output normals buffer and the input
having normals. -/
theorem selectByIndex_attr_cx :
    ¬ (((selectByIndex pcC7 [] false).normals ≠ []) ↔ pcC7.HasNormals = true) := by
  decide

/-- C7 (amended): for SelectByIndex, VoxelDownSample and UniformDownSample,
the output normals buffer has the same length as the output points buffer
when the input HasNormals() and is empty otherwise, and likewise for the
colors buffer; in particular the output attribute buffers are non-empty
exactly when the input carries the attribute and the output has points. -/
theorem reduceOps_attr_presence (pc : PointCloud) (indices : List ℕ)
    (invert : Bool) (voxel_size : ℚ) (every_k_points : ℕ) :
    ((selectByIndex pc indices invert).normals.length =
        (if pc.HasNormals then (selectByIndex pc indices invert).points.length else 0)) ∧
    ((selectByIndex pc indices invert).colors.length =
        (if pc.HasColors then (selectByIndex pc indices invert).points.length else 0)) ∧
    ((voxelDownSample pc voxel_size).normals.length =
        (if pc.HasNormals then (voxelDownSample pc voxel_size).points.length else 0)) ∧
    ((voxelDownSample pc voxel_size).colors.length =
        (if pc.HasColors then (voxelDownSample pc voxel_size).points.length else 0)) ∧
    ((uniformDownSample pc every_k_points).normals.length =
        (if pc.HasNormals then (uniformDownSample pc every_k_points).points.length else 0)) ∧
    ((uniformDownSample pc every_k_points).colors.length =
        (if pc.HasColors then (uniformDownSample pc every_k_points).points.length else 0)) := by
  have hsel : ∀ idx : List ℕ,
      (SelectByIndexImpl pc idx).normals.length =
        (if pc.HasNormals then (SelectByIndexImpl pc idx).points.length else 0) ∧
      (SelectByIndexImpl pc idx).colors.length =
        (if pc.HasColors then (SelectByIndexImpl pc idx).points.length else 0) := by
    intro idx
    by_cases hn : pc.HasNormals <;> by_cases hc : pc.HasColors <;>
      simp [SelectByIndexImpl, gatherList, hn, hc]
  have hnlen : pc.HasNormals = true → pc.normals.length = pc.points.length := by
    intro hn
    simp only [PointCloud.HasNormals, Bool.and_eq_true, decide_eq_true_eq] at hn
    exact hn.2
  have hclen : pc.HasColors = true → pc.colors.length = pc.points.length := by
    intro hc
    simp only [PointCloud.HasColors, Bool.and_eq_true, decide_eq_true_eq] at hc
    exact hc.2
  refine ⟨?_, ?_, ?_, ?_, ?_, ?_⟩
  · unfold selectByIndex
    by_cases hi : invert <;> simp only [hi, if_true, if_false, Bool.false_eq_true] <;>
      exact (hsel _).1
  · unfold selectByIndex
    by_cases hi : invert <;> simp only [hi, if_true, if_false, Bool.false_eq_true] <;>
      exact (hsel _).2
  · by_cases h0 : voxel_size ≤ 0
    · simp [voxelDownSample, h0]
    · by_cases hg : voxelSizeTooSmall pc voxel_size
      · simp [voxelDownSample, h0, hg]
      · by_cases hn : pc.HasNormals <;> by_cases hc : pc.HasColors <;>
          simp [voxelDownSample, h0, hg, hn, hc]
  · by_cases h0 : voxel_size ≤ 0
    · simp [voxelDownSample, h0]
    · by_cases hg : voxelSizeTooSmall pc voxel_size
      · simp [voxelDownSample, h0, hg]
      · by_cases hn : pc.HasNormals <;> by_cases hc : pc.HasColors <;>
          simp [voxelDownSample, h0, hg, hn, hc]
  · by_cases hk : every_k_points = 0
    · simp [uniformDownSample, hk]
    · by_cases hn : pc.HasNormals
      · simp [uniformDownSample, hk, hn, stridedSample, hnlen hn]
      · simp [uniformDownSample, hk, hn, stridedSample]
  · by_cases hk : every_k_points = 0
    · simp [uniformDownSample, hk]
    · by_cases hc : pc.HasColors
      · simp [uniformDownSample, hk, hc, stridedSample, hclen hc]
      · simp [uniformDownSample, hk, hc, stridedSample]

/-- With enough fuel, the set_difference merge on two strictly ascending
ranges is the filter of the first range by non-membership in the second. -/
theorem setDiffFuel_eq_filter : ∀ (n : ℕ) (xs ys : List ℕ),
    xs.length + ys.length ≤ n → List.Sorted (· < ·) xs →
    List.Sorted (· < ·) ys →
    setDiffFuel n xs ys = xs.filter (fun a => !decide (a ∈ ys)) := by
  intro n
  induction n with
  | zero =>
      intro xs ys hn _ _
      have hx : xs = [] := by
        cases xs with
        | nil => rfl
        | cons a l => simp at hn
      subst hx
      rfl
  | succ n ih =>
      intro xs ys hn hxs hys
      match xs, ys with
      | [], ys => rfl
      | x :: xs, [] => simp [setDiffFuel]
      | x :: xs, y :: ys =>
        rcases List.sorted_cons.mp hxs with ⟨hx, hxs2⟩
        rcases List.sorted_cons.mp hys with ⟨hy, hys2⟩
        simp only [List.length_cons] at hn
        rw [setDiffFuel]
        by_cases h1 : x < y
        · rw [if_pos h1, ih xs (y :: ys) (by simp; omega) hxs2 hys]
          have hxmem : ¬ x ∈ y :: ys := by
            intro hmem
            rcases List.mem_cons.mp hmem with h | h
            · omega
            · exact absurd (hy _ h) (by omega)
          rw [List.filter_cons_of_pos (by simp [hxmem])]
        · by_cases h2 : y < x
          · rw [if_neg h1, if_pos h2, ih (x :: xs) ys (by simp; omega) hxs hys2]
            refine List.filter_congr ?_
            intro a ha
            have hya : y < a := by
              rcases List.mem_cons.mp ha with h | h
              · omega
              · exact lt_trans h2 (hx _ h)
            have hmm : (a ∈ y :: ys) ↔ (a ∈ ys) := by
              simp only [List.mem_cons]
              constructor
              · rintro (h | h)
                · omega
                · exact h
              · exact fun h => Or.inr h
            simp [hmm]
          · have hxy : x = y := by omega
            subst hxy
            rw [if_neg h1, if_neg h2, ih xs ys (by omega) hxs2 hys2,
              List.filter_cons_of_neg (by simp)]
            refine List.filter_congr ?_
            intro a ha
            have hxa : x < a := hx _ ha
            have hmm : (a ∈ x :: ys) ↔ (a ∈ ys) := by
              simp only [List.mem_cons]
              constructor
              · rintro (h | h)
                · omega
                · exact h
              · exact fun h => Or.inr h
            simp [hmm]

/-- On two strictly ascending ranges, thrust::set_difference is the filter of
the first range by non-membership in the second. -/
theorem setDiff_eq_filter (xs ys : List ℕ) (hxs : List.Sorted (· < ·) xs)
    (hys : List.Sorted (· < ·) ys) :
    setDiff xs ys = xs.filter (fun a => !decide (a ∈ ys)) :=
  setDiffFuel_eq_filter (xs.length + ys.length) xs ys (le_refl _) hxs hys

/-- Splitting a list's length by a filter and its complement. -/
theorem length_filter_split {α : Type} (p : α → Bool) (l : List α) :
    (l.filter p).length + (l.filter (fun a => !p a)).length = l.length := by
  induction l with
  | nil => rfl
  | cons x xs ih =>
      by_cases h : p x <;> simp [List.filter_cons, h, ← ih] <;> omega

/-- The members of a duplicate-free in-range index list, filtered out of the
counting range, are a permutation of the list. -/
theorem filter_mem_perm (l : List ℕ) (n : ℕ) (hnd : l.Nodup)
    (hin : ∀ a ∈ l, a < n) :
    ((List.range n).filter (fun a => decide (a ∈ l))).Perm l := by
  rw [List.perm_ext_iff_of_nodup (List.Nodup.filter _ (List.nodup_range n)) hnd]
  intro a
  simp only [List.mem_filter, List.mem_range, decide_eq_true_eq]
  exact ⟨fun h => h.2, fun h => ⟨hin a h, h⟩⟩

/-- Length of the complement filter of a duplicate-free in-range index list
against the counting range. -/
theorem length_filter_not_mem (l : List ℕ) (n : ℕ) (hnd : l.Nodup)
    (hin : ∀ a ∈ l, a < n) :
    ((List.range n).filter (fun a => !decide (a ∈ l))).length = n - l.length := by
  have h1 := (filter_mem_perm l n hnd hin).length_eq
  have h2 := length_filter_split (fun a => decide (a ∈ l)) (List.range n)
  simp only [List.length_range] at h2
  omega

/-- The sorted index list SelectByIndex builds for the invert branch is
strictly ascending when the indices are duplicate-free. -/
theorem sortIndices_sorted_lt (l : List ℕ) (hnd : l.Nodup) :
    List.Sorted (· < ·) (l.insertionSort (· ≤ ·)) :=
  (List.sorted_insertionSort (· ≤ ·) l).lt_of_le
    ((List.perm_insertionSort (· ≤ ·) l).nodup_iff.mpr hnd)

/-- C4 (amended): SelectByIndex with invert = false gathers points (and
normals and colors when present) through the index list; with invert = true
it returns, in ascending order, the input elements at the positions of
[0, n) not contained in the index list — provided the indices are
duplicate-free and in range, the precondition under which the source's
fixed-size set_difference buffer is exactly filled. -/
theorem selectByIndex_spec (pc : PointCloud) (indices : List ℕ)
    (hin : ∀ i ∈ indices, i < pc.points.length) (hnd : indices.Nodup) :
    ((selectByIndex pc indices false).points =
        indices.map (fun i => pc.points.getD i (0, 0, 0)) ∧
      (pc.HasNormals = true → (selectByIndex pc indices false).normals =
        indices.map (fun i => pc.normals.getD i (0, 0, 0))) ∧
      (pc.HasColors = true → (selectByIndex pc indices false).colors =
        indices.map (fun i => pc.colors.getD i (0, 0, 0)))) ∧
    ((selectByIndex pc indices true).points =
        ((List.range pc.points.length).filter (fun a => !decide (a ∈ indices))).map
          (fun i => pc.points.getD i (0, 0, 0)) ∧
      (selectByIndex pc indices true).points.length =
        pc.points.length - indices.length ∧
      List.Sorted (· < ·)
        ((List.range pc.points.length).filter (fun a => !decide (a ∈ indices))) ∧
      (pc.HasNormals = true → (selectByIndex pc indices true).normals =
        ((List.range pc.points.length).filter (fun a => !decide (a ∈ indices))).map
          (fun i => pc.normals.getD i (0, 0, 0))) ∧
      (pc.HasColors = true → (selectByIndex pc indices true).colors =
        ((List.range pc.points.length).filter (fun a => !decide (a ∈ indices))).map
          (fun i => pc.colors.getD i (0, 0, 0)))) := by
  have hfil : List.Sorted (· < ·)
      ((List.range pc.points.length).filter (fun a => !decide (a ∈ indices))) :=
    List.Pairwise.filter _ (List.pairwise_lt_range _)
  have hdiff : setDiff (List.range pc.points.length)
        (indices.insertionSort (· ≤ ·)) =
      (List.range pc.points.length).filter (fun a => !decide (a ∈ indices)) := by
    rw [setDiff_eq_filter _ _
      (List.pairwise_lt_range pc.points.length) (sortIndices_sorted_lt indices hnd)]
    refine List.filter_congr ?_
    intro a _
    have hm := (List.perm_insertionSort (· ≤ ·) indices).mem_iff (a := a)
    rw [decide_eq_decide.mpr hm]
  have hlenfil :
      ((List.range pc.points.length).filter (fun a => !decide (a ∈ indices))).length =
        pc.points.length - indices.length :=
    length_filter_not_mem indices pc.points.length hnd hin
  have hmain : selectByIndex pc indices true =
      SelectByIndexImpl pc
        ((List.range pc.points.length).filter (fun a => !decide (a ∈ indices))) := by
    unfold selectByIndex
    simp only [if_true]
    rw [hdiff, List.take_of_length_le (le_of_eq (by rw [hlenfil])), hlenfil,
      Nat.sub_self, List.replicate_zero, List.append_nil]
  refine ⟨⟨?_, ?_, ?_⟩, ?_, ?_, hfil, ?_, ?_⟩
  · simp [selectByIndex, SelectByIndexImpl, gatherList]
  · intro hn
    simp [selectByIndex, SelectByIndexImpl, gatherList, hn]
  · intro hc
    simp [selectByIndex, SelectByIndexImpl, gatherList, hc]
  · rw [hmain]
    simp [SelectByIndexImpl, gatherList]
  · rw [hmain]
    simp [SelectByIndexImpl, gatherList, hlenfil]
  · intro hn
    rw [hmain]
    simp [SelectByIndexImpl, gatherList, hn]
  · intro hc
    rw [hmain]
    simp [SelectByIndexImpl, gatherList, hc]

/-- Witness for C4 on a concrete three-point cloud with indices [2, 0]. -/
theorem selectByIndex_witness :
    (∀ i ∈ ([2, 0] : List ℕ), i < (⟨[(5, 0, 0), (6, 0, 0), (7, 0, 0)], [], []⟩ :
        PointCloud).points.length) ∧
    ([2, 0] : List ℕ).Nodup ∧
    (selectByIndex ⟨[(5, 0, 0), (6, 0, 0), (7, 0, 0)], [], []⟩ [2, 0] false).points =
      ([2, 0] : List ℕ).map
        (fun i => (⟨[(5, 0, 0), (6, 0, 0), (7, 0, 0)], [], []⟩ :
          PointCloud).points.getD i (0, 0, 0)) ∧
    (selectByIndex ⟨[(5, 0, 0), (6, 0, 0), (7, 0, 0)], [], []⟩ [2, 0] true).points.length =
      (⟨[(5, 0, 0), (6, 0, 0), (7, 0, 0)], [], []⟩ : PointCloud).points.length -
        ([2, 0] : List ℕ).length :=
  ⟨by decide, by decide,
    (selectByIndex_spec ⟨[(5, 0, 0), (6, 0, 0), (7, 0, 0)], [], []⟩ [2, 0]
        (by decide) (by decide)).1.1,
    (selectByIndex_spec ⟨[(5, 0, 0), (6, 0, 0), (7, 0, 0)], [], []⟩ [2, 0]
        (by decide) (by decide)).2.2.1⟩

/-- The concrete cloud of the C4 counterexample: one point, index list [5]. -/
def pcC4 : PointCloud := ⟨[(7, 0, 0)], [], []⟩

/-- C4 counterexample: with the out-of-range index list [5] on a one-point
cloud, the inverted selection returns no points (n_out = 1 - 1 = 0), while
the claim promises the input elements at the positions of [0, 1) not
contained in [5], that is one point; the claimed output description and the
claimed length contradict the computed result. -/
theorem selectByIndex_invert_cx :
    ¬ ((selectByIndex pcC4 [5] true).points =
        ((List.range pcC4.points.length).filter
          (fun a => !decide (a ∈ ([5] : List ℕ)))).map
            (fun i => pcC4.points.getD i (0, 0, 0))) := by
  decide

/-- C2: RemoveRadiusOutliers keeps exactly the points whose radius search
with capacity nb_points + 1 yields strictly more than nb_points valid hits
within search_radius, returning that sub-cloud with the ascending list of
their input indices; for nb_points < 1 or search_radius <= 0 it reports an
error instead of filtering. -/
theorem removeRadiusOutliers_spec (pc : PointCloud) (nb_points : ℕ)
    (search_radius : ℚ) :
    (1 ≤ nb_points → 0 < search_radius →
      ∃ idxs : List ℕ,
        removeRadiusOutliers pc nb_points search_radius =
          Except.ok (selectByIndex pc idxs false, idxs) ∧
        idxs = (List.range pc.points.length).filter
          (fun i => decide (nb_points <
            radiusHits pc.points search_radius (nb_points + 1)
              (pc.points.getD i (0, 0, 0)))) ∧
        List.Sorted (· < ·) idxs ∧
        (selectByIndex pc idxs false).points =
          idxs.map (fun i => pc.points.getD i (0, 0, 0))) ∧
    ((nb_points = 0 ∨ search_radius ≤ 0) →
      removeRadiusOutliers pc nb_points search_radius =
        Except.error "[RemoveRadiusOutliers] Illegal input parameters") := by
  constructor
  · intro h1 h2
    have hguard : ¬ (nb_points < 1 ∨ search_radius ≤ 0) := by
      push_neg
      exact ⟨by omega, h2⟩
    refine ⟨(List.range pc.points.length).filter
        (fun i => decide (nb_points <
          radiusHits pc.points search_radius (nb_points + 1)
            (pc.points.getD i (0, 0, 0)))), ?_, rfl, ?_, ?_⟩
    · unfold removeRadiusOutliers
      rw [if_neg hguard]
      have hcnt : ∀ i ∈ List.range pc.points.length,
          decide (nb_points <
            (pc.points.map
              (radiusHits pc.points search_radius (nb_points + 1))).getD i 0) =
          decide (nb_points <
            radiusHits pc.points search_radius (nb_points + 1)
              (pc.points.getD i (0, 0, 0))) := by
        intro i hi
        have hlt : i < pc.points.length := List.mem_range.mp hi
        have hlt2 : i < (pc.points.map
            (radiusHits pc.points search_radius (nb_points + 1))).length := by
          simp [hlt]
        rw [List.getD_eq_getElem _ _ hlt2, List.getD_eq_getElem _ _ hlt,
          List.getElem_map]
      have hfe := List.filter_congr hcnt
      simp only [hfe]
    · exact List.Pairwise.filter _ (List.pairwise_lt_range _)
    · simp [selectByIndex, SelectByIndexImpl, gatherList]
  · intro h
    unfold removeRadiusOutliers
    have hc : nb_points < 1 ∨ search_radius ≤ 0 := by
      rcases h with h | h
      · exact Or.inl (by omega)
      · exact Or.inr h
    rw [if_pos hc]

/-- The concrete cloud of the C2 witness. -/
def pcC2 : PointCloud := ⟨[(0, 0, 0), (1, 0, 0), (10, 0, 0)], [], []⟩

/-- Witness for C2 at nb_points = 1, search_radius = 2 on a three-point
cloud. -/
theorem removeRadiusOutliers_witness :
    1 ≤ 1 ∧ (0 : ℚ) < 2 ∧
      (∃ idxs : List ℕ,
        removeRadiusOutliers pcC2 1 2 =
          Except.ok (selectByIndex pcC2 idxs false, idxs) ∧
        idxs = (List.range pcC2.points.length).filter
          (fun i => decide (1 <
            radiusHits pcC2.points 2 2 (pcC2.points.getD i (0, 0, 0)))) ∧
        List.Sorted (· < ·) idxs ∧
        (selectByIndex pcC2 idxs false).points =
          idxs.map (fun i => pcC2.points.getD i (0, 0, 0))) :=
  ⟨le_refl 1, by norm_num,
    (removeRadiusOutliers_spec pcC2 1 2).1 (le_refl 1) (by norm_num)⟩

/-- The rational test checkDistTh decides the real threshold comparison
0 < d and d < m + ratio * sqrt s of check_distance_threshold_functor. -/
theorem checkDistTh_iff (m ratio s d : ℚ) (hρ : 0 < ratio) (hs : 0 ≤ s) :
    checkDistTh m ratio s d = true ↔
      (0 < d ∧ (d : ℝ) < (m : ℝ) + (ratio : ℝ) * Real.sqrt (s : ℝ)) := by
  have hsR : (0 : ℝ) ≤ (s : ℝ) := by exact_mod_cast hs
  have hρR : (0 : ℝ) < (ratio : ℝ) := by exact_mod_cast hρ
  have hsqrt : 0 ≤ Real.sqrt (s : ℝ) := Real.sqrt_nonneg _
  unfold checkDistTh
  simp only [Bool.and_eq_true, Bool.or_eq_true, decide_eq_true_eq]
  constructor
  · rintro ⟨hd, hcase⟩
    refine ⟨hd, ?_⟩
    rcases hcase with hlt | hsq
    · have hltR : (d : ℝ) < (m : ℝ) := by exact_mod_cast hlt
      nlinarith [mul_nonneg hρR.le hsqrt]
    · by_cases hdm : d < m
      · have hltR : (d : ℝ) < (m : ℝ) := by exact_mod_cast hdm
        nlinarith [mul_nonneg hρR.le hsqrt]
      · push_neg at hdm
        have hdmR : (0 : ℝ) ≤ (d : ℝ) - (m : ℝ) := by
          have hmd : (m : ℝ) ≤ (d : ℝ) := by exact_mod_cast hdm
          linarith
        have hsqR : ((d : ℝ) - (m : ℝ)) * ((d : ℝ) - (m : ℝ)) <
            (ratio : ℝ) * (ratio : ℝ) * (s : ℝ) := by
          exact_mod_cast hsq
        have h1 : (((d : ℝ) - (m : ℝ)) / (ratio : ℝ)) ^ 2 < (s : ℝ) := by
          rw [div_pow, div_lt_iff₀ (by positivity)]
          nlinarith
        have hdiv : ((d : ℝ) - (m : ℝ)) / (ratio : ℝ) < Real.sqrt (s : ℝ) :=
          (Real.lt_sqrt (div_nonneg hdmR hρR.le)).mpr h1
        have h2 := (div_lt_iff₀ hρR).mp hdiv
        linarith
  · rintro ⟨hd, hlt⟩
    refine ⟨hd, ?_⟩
    by_cases hdm : d < m
    · exact Or.inl hdm
    · push_neg at hdm
      right
      have hdmR : (0 : ℝ) ≤ (d : ℝ) - (m : ℝ) := by
        have hmd : (m : ℝ) ≤ (d : ℝ) := by exact_mod_cast hdm
        linarith
      have hdiv : ((d : ℝ) - (m : ℝ)) / (ratio : ℝ) < Real.sqrt (s : ℝ) := by
        rw [div_lt_iff₀ hρR]
        nlinarith
      have h1 := (Real.lt_sqrt (div_nonneg hdmR hρR.le)).mp hdiv
      have h2 : ((d : ℝ) - (m : ℝ)) * ((d : ℝ) - (m : ℝ)) <
          (ratio : ℝ) * (ratio : ℝ) * (s : ℝ) := by
        rw [div_pow] at h1
        have h3 := (div_lt_iff₀ (show (0 : ℝ) < (ratio : ℝ) ^ 2 by positivity)).mp h1
        nlinarith
      exact_mod_cast h2

/-- The squared-deviation sum of the source is non-negative. -/
theorem sqSumCode_nonneg (ds : List ℚ) (m : ℚ) : 0 ≤ sqSumCode ds m := by
  unfold sqSumCode
  refine List.sum_nonneg ?_
  intro x hx
  rcases List.mem_map.mp hx with ⟨a, _, rfl⟩
  by_cases h : 0 < a
  · simp only [h, if_true]
    exact mul_self_nonneg _
  · simp [h]

/-- The squared-deviation sum of the claim wording is non-negative. -/
theorem sqSumClaim_nonneg (ds : List ℚ) (m : ℚ) : 0 ≤ sqSumClaim ds m := by
  unfold sqSumClaim
  refine List.sum_nonneg ?_
  intro x hx
  rcases List.mem_map.mp hx with ⟨a, _, rfl⟩
  by_cases h : 0 ≤ a
  · simp only [h, if_true]
    exact mul_self_nonneg _
  · simp [h]

/-- C3 (amended): with nb_neighbors >= 1 and std_ratio > 0,
RemoveStatisticalOutliers keeps exactly the points whose average KNN distance
d satisfies 0 < d < mean + std_ratio * std_dev where mean is taken over the
valid (non-negative) averages and the Bessel-corrected std_dev sums squared
deviations over the strictly positive averages only (a zero average counts
toward the mean and the Bessel denominator but contributes nothing to the
squared-deviation sum); on an empty cloud or without valid distances it
returns the empty cloud and index list. -/
theorem removeStatisticalOutliers_spec (pc : PointCloud) (nb_neighbors : ℕ)
    (std_ratio : ℚ) (h1 : 1 ≤ nb_neighbors) (h2 : 0 < std_ratio) :
    (pc.points = [] →
      removeStatisticalOutliers pc nb_neighbors std_ratio =
        Except.ok (⟨[], [], []⟩, [])) ∧
    (validCount (avgDistances pc nb_neighbors) = 0 →
      removeStatisticalOutliers pc nb_neighbors std_ratio =
        Except.ok (⟨[], [], []⟩, [])) ∧
    (pc.points ≠ [] → validCount (avgDistances pc nb_neighbors) ≠ 0 →
      ∃ idxs : List ℕ,
        removeStatisticalOutliers pc nb_neighbors std_ratio =
          Except.ok (selectByIndex pc idxs false, idxs) ∧
        (∀ i, i ∈ idxs ↔ i < pc.points.length ∧
          0 < (avgDistances pc nb_neighbors).getD i (-1) ∧
          (((avgDistances pc nb_neighbors).getD i (-1) : ℚ) : ℝ) <
            ((cloudMean (avgDistances pc nb_neighbors) : ℚ) : ℝ) +
              ((std_ratio : ℚ) : ℝ) *
                Real.sqrt
                  (((sqSumCode (avgDistances pc nb_neighbors)
                      (cloudMean (avgDistances pc nb_neighbors)) : ℚ) : ℝ) /
                    ((validCount (avgDistances pc nb_neighbors) - 1 : ℕ) : ℝ))) ∧
        List.Sorted (· < ·) idxs ∧
        (selectByIndex pc idxs false).points =
          idxs.map (fun i => pc.points.getD i (0, 0, 0))) := by
  have hguard : ¬ (nb_neighbors < 1 ∨ std_ratio ≤ 0) := by
    push_neg
    exact ⟨by omega, h2⟩
  refine ⟨?_, ?_, ?_⟩
  · intro hemp
    unfold removeStatisticalOutliers
    rw [if_neg hguard, if_pos hemp]
  · intro hv
    unfold removeStatisticalOutliers
    rw [if_neg hguard]
    by_cases hemp : pc.points = []
    · rw [if_pos hemp]
    · rw [if_neg hemp]
      simp only [hv, if_true]
  · intro hemp hv
    unfold removeStatisticalOutliers
    rw [if_neg hguard, if_neg hemp]
    simp only [hv, if_false]
    set ds := avgDistances pc nb_neighbors with hds
    set v := validCount ds with hvv
    set m := cloudMean ds with hm
    set s := sqSumCode ds m / ((v - 1 : ℕ) : ℚ) with hsdef
    have hs0 : 0 ≤ s := by
      rw [hsdef]
      exact div_nonneg (sqSumCode_nonneg ds m) (by positivity)
    have hcast : ((s : ℚ) : ℝ) =
        ((sqSumCode ds m : ℚ) : ℝ) / ((v - 1 : ℕ) : ℝ) := by
      rw [hsdef]
      push_cast
      ring
    refine ⟨(List.range pc.points.length).filter
        (fun i => checkDistTh m std_ratio s (ds.getD i (-1))), rfl, ?_, ?_, ?_⟩
    · intro i
      rw [List.mem_filter, List.mem_range]
      rw [checkDistTh_iff m std_ratio s (ds.getD i (-1)) h2 hs0, hcast]
    · exact List.Pairwise.filter _ (List.pairwise_lt_range _)
    · simp [selectByIndex, SelectByIndexImpl, gatherList]

/-- Witness for C3 at the empty cloud with nb_neighbors = 2, std_ratio = 1. -/
theorem removeStatisticalOutliers_witness :
    (1 : ℕ) ≤ 2 ∧ (0 : ℚ) < 1 ∧
      (⟨[], [], []⟩ : PointCloud).points = [] ∧
      removeStatisticalOutliers ⟨[], [], []⟩ 2 1 = Except.ok (⟨[], [], []⟩, []) :=
  ⟨by norm_num, by norm_num, rfl,
    (removeStatisticalOutliers_spec ⟨[], [], []⟩ 2 1 (by norm_num) (by norm_num)).1 rfl⟩

/-- Membership in the claim-side kept list: kept are exactly the indices
whose average distance d satisfies 0 < d < mean + std_ratio * sqrt of the
claim-worded Bessel-corrected variance, the squared deviations summed over
all valid averages. -/
theorem claimKeptStatistical_mem (pc : PointCloud) (nb_neighbors : ℕ)
    (std_ratio : ℚ) (h2 : 0 < std_ratio) (i : ℕ) :
    i ∈ claimKeptStatistical pc nb_neighbors std_ratio ↔
      (i < pc.points.length ∧
        0 < (avgDistances pc nb_neighbors).getD i (-1) ∧
        (((avgDistances pc nb_neighbors).getD i (-1) : ℚ) : ℝ) <
          ((cloudMean (avgDistances pc nb_neighbors) : ℚ) : ℝ) +
            ((std_ratio : ℚ) : ℝ) *
              Real.sqrt
                (((sqSumClaim (avgDistances pc nb_neighbors)
                    (cloudMean (avgDistances pc nb_neighbors)) : ℚ) : ℝ) /
                  ((validCount (avgDistances pc nb_neighbors) - 1 : ℕ) : ℝ))) := by
  unfold claimKeptStatistical
  set ds := avgDistances pc nb_neighbors with hds
  set v := validCount ds with hvv
  set m := cloudMean ds with hm
  set s := sqSumClaim ds m / ((v - 1 : ℕ) : ℚ) with hsdef
  have hs0 : 0 ≤ s := by
    rw [hsdef]
    exact div_nonneg (sqSumClaim_nonneg ds m) (by positivity)
  have hcast : ((s : ℚ) : ℝ) =
      ((sqSumClaim ds m : ℚ) : ℝ) / ((v - 1 : ℕ) : ℝ) := by
    rw [hsdef]
    push_cast
    ring
  rw [List.mem_filter, List.mem_range,
    checkDistTh_iff m std_ratio s (ds.getD i (-1)) h2 hs0, hcast]

/-- The concrete cloud of the C3 counterexample: a duplicated point pair at
the origin, a tight pair at 10 and 12, and a probe at 569/40. -/
def pcC3 : PointCloud :=
  ⟨[(0, 0, 0), (0, 0, 0), (10, 0, 0), (12, 0, 0), (569 / 40, 0, 0)], [], []⟩

/-- C3 counterexample: on pcC3 with nb_neighbors = 2 and std_ratio = 1 the
claim-worded rule (squared deviations summed over all valid averages,
including the zero averages of the duplicated pair) keeps indices
[2, 3, 4], while the source keeps [2, 3]: the zero averages are excluded
from the squared-deviation sum, shrinking std_dev below the claimed value
and dropping the probe point. -/
theorem removeStatisticalOutliers_cx :
    claimKeptStatistical pcC3 2 1 = [2, 3, 4] ∧
    (removeStatisticalOutliers pcC3 2 1).toOption.map (fun r => r.2) =
      some [2, 3] ∧
    ¬ ((removeStatisticalOutliers pcC3 2 1).toOption.map (fun r => r.2) =
        some (claimKeptStatistical pcC3 2 1)) := by
  refine ⟨by with_unfolding_all decide, by with_unfolding_all decide,
    by with_unfolding_all decide⟩

/-- uniqKeys of the empty sequence only. -/
theorem uniqKeys_eq_nil {l : List VoxelKey} (h : uniqKeys l = []) : l = [] := by
  cases l with
  | nil => rfl
  | cons x xs =>
      exfalso
      simp only [uniqKeys] at h
      cases hu : uniqKeys xs with
      | nil => rw [hu] at h; simp at h
      | cons u t =>
          rw [hu] at h
          by_cases hx : x = u <;> simp [hx] at h

/-- uniqKeys of a non-empty sequence starts with the head of the sequence. -/
theorem uniqKeys_head (x : VoxelKey) (xs : List VoxelKey) :
    ∃ t, uniqKeys (x :: xs) = x :: t := by
  simp only [uniqKeys]
  cases hu : uniqKeys xs with
  | nil => exact ⟨[], rfl⟩
  | cons u t =>
      by_cases hx : x = u
      · exact ⟨t, by simp [hx]⟩
      · exact ⟨u :: t, by simp [hx]⟩

/-- uniqKeys preserves membership. -/
theorem mem_uniqKeys : ∀ (l : List VoxelKey) (k : VoxelKey),
    k ∈ uniqKeys l ↔ k ∈ l
  | [], k => by simp [uniqKeys]
  | x :: xs, k => by
    simp only [uniqKeys]
    cases hu : uniqKeys xs with
    | nil =>
        have hxs := uniqKeys_eq_nil hu
        subst hxs
        simp
    | cons u t =>
        have hmemxs : ∀ a, a ∈ u :: t ↔ a ∈ xs := by
          intro a
          rw [← hu, mem_uniqKeys xs a]
        by_cases hx : x = u
        · show (k ∈ if x = u then u :: t else x :: u :: t) ↔ k ∈ x :: xs
          rw [if_pos hx, hmemxs k, List.mem_cons]
          constructor
          · exact fun h => Or.inr h
          · rintro (rfl | h)
            · exact (hmemxs k).mp (by rw [hx]; exact List.mem_cons_self u t)
            · exact h
        · show (k ∈ if x = u then u :: t else x :: u :: t) ↔ k ∈ x :: xs
          rw [if_neg hx]
          constructor
          · intro hm
            rcases List.mem_cons.mp hm with rfl | hm2
            · exact List.mem_cons_self k xs
            · exact List.mem_cons_of_mem x ((hmemxs k).mp hm2)
          · intro hm
            rcases List.mem_cons.mp hm with rfl | hm2
            · exact List.mem_cons_self k (u :: t)
            · exact List.mem_cons_of_mem x ((hmemxs k).mpr hm2)

/-- uniqKeys of a key sequence sorted by the lexicographic order is strictly
sorted. -/
theorem uniqKeys_sorted (l : List VoxelKey) (h : l.Pairwise keyLe) :
    (uniqKeys l).Pairwise (fun a b => keyLe a b ∧ a ≠ b) := by
  induction l with
  | nil => simp [uniqKeys]
  | cons x xs ih =>
      rcases List.pairwise_cons.mp h with ⟨hx, hxs⟩
      have ihs := ih hxs
      simp only [uniqKeys]
      cases hu : uniqKeys xs with
      | nil => simp
      | cons u t =>
          rw [hu] at ihs
          by_cases hxu : x = u
          · simpa [hxu] using ihs
          · simp only [hxu, if_false]
            refine List.pairwise_cons.mpr ⟨?_, ihs⟩
            intro b hb
            have hbxs : b ∈ xs := (mem_uniqKeys xs b).mp (hu ▸ hb)
            refine ⟨hx b hbxs, ?_⟩
            rcases List.mem_cons.mp hb with rfl | hbt
            · exact hxu
            · intro hxb
              have hu_mem : u ∈ xs :=
                (mem_uniqKeys xs u).mp (hu ▸ List.mem_cons_self u t)
              have h1 : keyLe x u := hx u hu_mem
              have h2 : keyLe u x := by
                have := (List.pairwise_cons.mp ihs).1 b hbt
                rw [← hxb] at this
                exact this.1
              exact hxu (antisymm h1 h2)

/-- reduce_by_key on a key-sorted sequence: one output entry per distinct
key, holding the sum of the values of that key's run and the run length. -/
theorem reduceByKey_sorted_spec {α : Type} [AddCommMonoid α] :
    ∀ (l : List (VoxelKey × α)), l.Pairwise (fun x y => keyLe x.1 y.1) →
      reduceByKey l = (uniqKeys (l.map Prod.fst)).map
        (fun k => (k, ((l.filter (fun e => e.1 = k)).map (fun e => e.2)).sum,
          l.countP (fun e => e.1 = k)))
  | [], _ => rfl
  | (k, v) :: rest, h => by
    rcases List.pairwise_cons.mp h with ⟨hk, hrest⟩
    have ih := reduceByKey_sorted_spec rest hrest
    have hrestKeys : (rest.map Prod.fst).Pairwise keyLe :=
      List.Pairwise.map Prod.fst (fun a b hab => hab) hrest
    cases hu : uniqKeys (rest.map Prod.fst) with
    | nil =>
        have hrm := uniqKeys_eq_nil hu
        have hrest_nil : rest = [] := by
          cases rest with
          | nil => rfl
          | cons e es => simp at hrm
        subst hrest_nil
        simp [reduceByKey, uniqKeys]
    | cons u t =>
        have hmap : reduceByKey rest = (u :: t).map
            (fun k2 => (k2, ((rest.filter (fun e => e.1 = k2)).map (fun e => e.2)).sum,
              rest.countP (fun e => e.1 = k2))) := by
          rw [ih, hu]
        by_cases hku : k = u
        · have hL : reduceByKey ((k, v) :: rest) =
              (k, v + ((rest.filter (fun e => e.1 = u)).map (fun e => e.2)).sum,
                rest.countP (fun e => e.1 = u) + 1) ::
              t.map (fun k2 => (k2,
                ((rest.filter (fun e => e.1 = k2)).map (fun e => e.2)).sum,
                rest.countP (fun e => e.1 = k2))) := by
            simp only [reduceByKey]
            rw [hmap]
            simp [hku]
          have hR : uniqKeys (((k, v) :: rest).map Prod.fst) = u :: t := by
            simp only [List.map_cons, uniqKeys]
            rw [hu]
            simp [hku]
          rw [hL, hR, List.map_cons]
          have hsorted_u := uniqKeys_sorted (rest.map Prod.fst) hrestKeys
          rw [hu] at hsorted_u
          congr 1
          · subst hku
            simp [List.filter_cons, List.countP_cons]
          · refine List.map_congr_left ?_
            intro b hb
            have hbu : u ≠ b := ((List.pairwise_cons.mp hsorted_u).1 b hb).2
            have hbk : ¬ ((k, v).1 = b) := by
              intro hkb
              exact hbu (hku.symm.trans (hkb : k = b))
            simp [List.filter_cons, List.countP_cons, hbk]
        · have hknotin : k ∉ rest.map Prod.fst := by
            intro hmem
            cases hrm : rest.map Prod.fst with
            | nil => rw [hrm] at hmem; simp at hmem
            | cons x xs =>
                rcases uniqKeys_head x xs with ⟨t2, ht2⟩
                have hxu : x = u := by
                  rw [hrm, ht2] at hu
                  exact (List.cons_eq_cons.mp hu).1
                rw [hrm] at hmem
                have hkx : keyLe k x := by
                  have hxmem : x ∈ rest.map Prod.fst := by
                    rw [hrm]
                    exact List.mem_cons_self x xs
                  rcases List.mem_map.mp hxmem with ⟨e, he, hex⟩
                  rw [← hex]
                  exact hk e he
                rcases List.mem_cons.mp hmem with rfl | hmem2
                · exact hku hxu
                · have hxk : keyLe x k := by
                    rw [hrm] at hrestKeys
                    exact (List.pairwise_cons.mp hrestKeys).1 k hmem2
                  exact hku ((antisymm hkx hxk).trans hxu)
          have hfilter0 : rest.filter (fun e => e.1 = k) = [] := by
            refine List.filter_eq_nil_iff.mpr ?_
            intro e he
            simp only [decide_eq_true_eq]
            intro hek
            exact hknotin (List.mem_map.mpr ⟨e, he, hek⟩)
          have hcount0 : rest.countP (fun e => e.1 = k) = 0 := by
            refine List.countP_eq_zero.mpr ?_
            intro e he
            simp only [decide_eq_true_eq]
            intro hek
            exact hknotin (List.mem_map.mpr ⟨e, he, hek⟩)
          have hL : reduceByKey ((k, v) :: rest) =
              (k, v, 1) :: (u :: t).map
                (fun k2 => (k2,
                  ((rest.filter (fun e => e.1 = k2)).map (fun e => e.2)).sum,
                  rest.countP (fun e => e.1 = k2))) := by
            simp only [reduceByKey]
            rw [hmap]
            simp [hku]
          have hR : uniqKeys (((k, v) :: rest).map Prod.fst) = k :: u :: t := by
            simp only [List.map_cons, uniqKeys]
            rw [hu]
            simp [hku]
          rw [hL, hR]
          simp only [List.map_cons]
          congr 1
          · simp [List.filter_cons, List.countP_cons, hfilter0, hcount0]
          congr 1
          · simp [List.filter_cons, List.countP_cons, hku]
          · refine List.map_congr_left ?_
            intro b hb
            have hbmem : b ∈ rest.map Prod.fst := (mem_uniqKeys _ b).mp
              (hu ▸ List.mem_cons_of_mem u hb)
            have hbk : ¬ ((k, v).1 = b) := fun hkb => hknotin (by
              simp only at hkb
              rw [hkb]
              exact hbmem)
            simp [List.filter_cons, List.countP_cons, hbk]

/-- Counting a key through the zip of keys and values counts it among the
keys. -/
theorem countP_zip_fst {α : Type} :
    ∀ (keys : List VoxelKey) (vals : List α) (k : VoxelKey),
      keys.length = vals.length →
      (keys.zip vals).countP (fun e => e.1 = k) = keys.countP (fun x => x = k)
  | [], _, _, _ => by simp
  | _ :: _, [], _, h => by simp at h
  | k0 :: kr, v0 :: vr, k, h => by
    simp only [List.length_cons, Nat.succ_inj] at h
    simp only [List.zip_cons_cons, List.countP_cons, countP_zip_fst kr vr k h]

/-- Summing the second components of the filtered zip with paired values
splits into the two per-buffer sums. -/
theorem filter_zip_sum_split {A B : Type} [AddCommMonoid A] [AddCommMonoid B] :
    ∀ (keys : List VoxelKey) (as : List A) (bs : List B) (k : VoxelKey),
      keys.length = as.length → as.length = bs.length →
      (((keys.zip (as.zip bs)).filter (fun e => e.1 = k)).map (fun e => e.2)).sum =
        ((((keys.zip as).filter (fun e => e.1 = k)).map (fun e => e.2)).sum,
         (((keys.zip bs).filter (fun e => e.1 = k)).map (fun e => e.2)).sum)
  | [], _, _, _, _, _ => by simp [← Prod.mk_zero_zero]
  | _ :: _, [], _, _, hka, _ => by simp at hka
  | _ :: _, _ :: _, [], _, _, hab => by simp at hab
  | k0 :: kr, a :: ar, b :: br, k, hka, hab => by
    simp only [List.length_cons, Nat.succ_inj] at hka hab
    have ih := filter_zip_sum_split kr ar br k hka hab
    simp only [List.zip_cons_cons, List.filter_cons]
    by_cases h : k0 = k
    · simp [h, ih, Prod.mk_add_mk]
    · simp [h, ih]

/-- The whole sort-then-reduce pipeline of VoxelDownSample in terms of the
occupied cells of the unsorted input. -/
theorem reduceByKey_pipeline {α : Type} [AddCommMonoid α]
    (keys : List VoxelKey) (vals : List α) (hlen : keys.length = vals.length) :
    reduceByKey (sortByKey (keys.zip vals)) =
      (uniqKeys (keys.insertionSort keyLe)).map
        (fun k => (k,
          (((keys.zip vals).filter (fun e => e.1 = k)).map (fun e => e.2)).sum,
          keys.countP (fun x => x = k))) := by
  have hperm : (sortByKey (keys.zip vals)).Perm (keys.zip vals) :=
    List.perm_insertionSort _ _
  have hsorted : (sortByKey (keys.zip vals)).Pairwise (fun x y => keyLe x.1 y.1) :=
    List.sorted_insertionSort pairKeyLe (keys.zip vals)
  rw [reduceByKey_sorted_spec _ hsorted]
  have hmapfst : (sortByKey (keys.zip vals)).map Prod.fst =
      keys.insertionSort keyLe := by
    refine List.eq_of_perm_of_sorted ?_ ?_ (List.sorted_insertionSort keyLe keys)
    · refine ((hperm.map Prod.fst).trans ?_).trans
        (List.perm_insertionSort keyLe keys).symm
      rw [List.map_fst_zip keys vals (le_of_eq hlen)]
    · exact List.Pairwise.map Prod.fst (fun a b hab => hab) hsorted
  rw [hmapfst]
  refine List.map_congr_left ?_
  intro k _
  have hsum : (((sortByKey (keys.zip vals)).filter (fun e => e.1 = k)).map
      (fun e => e.2)).sum =
        (((keys.zip vals).filter (fun e => e.1 = k)).map (fun e => e.2)).sum :=
    ((hperm.filter _).map _).sum_eq
  have hcnt : (sortByKey (keys.zip vals)).countP (fun e => e.1 = k) =
      keys.countP (fun x => x = k) := by
    rw [hperm.countP_eq, countP_zip_fst keys vals k hlen]
  rw [hsum, hcnt]

/-- C1: past the size guards, VoxelDownSample buckets each point into the
cell floor((p - (GetMinBound() - voxel_size/2)) / voxel_size) per coordinate
and outputs exactly one element per occupied cell: the mean of the cell's
points, the mean of the cell's normals fed to Eigen normalize() (unitize)
when the input has normals, and the mean of the cell's colors when it has
colors. -/
theorem voxelDownSample_spec (pc : PointCloud) (voxel_size : ℚ)
    (h0 : 0 < voxel_size) (hg : voxelSizeTooSmall pc voxel_size = false) :
    (occupiedCells pc voxel_size).Nodup ∧
    (∀ k, k ∈ occupiedCells pc voxel_size ↔ k ∈ voxelKeys pc voxel_size) ∧
    (voxelDownSample pc voxel_size).points =
      (occupiedCells pc voxel_size).map (cellPointMean pc voxel_size) ∧
    (pc.HasNormals = true →
      storedNormals (voxelDownSample pc voxel_size) =
        (occupiedCells pc voxel_size).map
          (fun k => unitize (cellNormalMean pc voxel_size k))) ∧
    (pc.HasColors = true →
      (voxelDownSample pc voxel_size).colors =
        (occupiedCells pc voxel_size).map (cellColorMean pc voxel_size)) := by
  have hng : ¬ voxel_size ≤ 0 := not_le.mpr h0
  have hg2 : ¬ (voxelSizeTooSmall pc voxel_size = true) := by simp [hg]
  have hka : (voxelKeys pc voxel_size).length = pc.points.length := by
    simp [voxelKeys]
  have hnd : (occupiedCells pc voxel_size).Nodup := by
    have hs := uniqKeys_sorted ((voxelKeys pc voxel_size).insertionSort keyLe)
      (List.sorted_insertionSort keyLe _)
    exact hs.imp (fun h => h.2)
  have hmem : ∀ k, k ∈ occupiedCells pc voxel_size ↔ k ∈ voxelKeys pc voxel_size := by
    intro k
    unfold occupiedCells
    rw [mem_uniqKeys, (List.perm_insertionSort keyLe _).mem_iff]
  refine ⟨hnd, hmem, ?_⟩
  by_cases hn : pc.HasNormals <;> by_cases hc : pc.HasColors
  · -- normals and colors
    have hlen_n : pc.normals.length = pc.points.length := by
      simp only [PointCloud.HasNormals, Bool.and_eq_true, decide_eq_true_eq] at hn
      exact hn.2
    have hlen_c : pc.colors.length = pc.points.length := by
      simp only [PointCloud.HasColors, Bool.and_eq_true, decide_eq_true_eq] at hc
      exact hc.2
    have hlenvals : (voxelKeys pc voxel_size).length =
        (pc.points.zip (pc.normals.zip pc.colors)).length := by
      simp [List.length_zip, hlen_n, hlen_c, hka]
    have hS : ∀ k, ((((voxelKeys pc voxel_size).zip
          (pc.points.zip (pc.normals.zip pc.colors))).filter
            (fun e => e.1 = k)).map (fun e => e.2)).sum =
        ((cellPoints pc voxel_size k).sum,
         (cellNormals pc voxel_size k).sum,
         (cellColors pc voxel_size k).sum) := by
      intro k
      rw [filter_zip_sum_split (voxelKeys pc voxel_size) pc.points
        (pc.normals.zip pc.colors) k (by rw [hka])
        (by simp [List.length_zip, hlen_n, hlen_c])]
      rw [filter_zip_sum_split (voxelKeys pc voxel_size) pc.normals pc.colors k
        (by rw [hka, hlen_n]) (by rw [hlen_n, hlen_c])]
      rfl
    have hcloud : voxelDownSample pc voxel_size =
        { points := (reduceByKey (sortByKey ((voxelKeys pc voxel_size).zip
              (pc.points.zip (pc.normals.zip pc.colors))))).map
                (fun e => vdiv e.2.1.1 e.2.2),
          normals := (reduceByKey (sortByKey ((voxelKeys pc voxel_size).zip
              (pc.points.zip (pc.normals.zip pc.colors))))).map
                (fun e => vdiv e.2.1.2.1 e.2.2),
          colors := (reduceByKey (sortByKey ((voxelKeys pc voxel_size).zip
              (pc.points.zip (pc.normals.zip pc.colors))))).map
                (fun e => vdiv e.2.1.2.2 e.2.2) } := by
      unfold voxelDownSample
      rw [if_neg hng, if_neg hg2, if_pos hn, if_pos hc]
    refine ⟨?_, fun _ => ?_, fun _ => ?_⟩
    · rw [hcloud]
      show (reduceByKey (sortByKey ((voxelKeys pc voxel_size).zip
          (pc.points.zip (pc.normals.zip pc.colors))))).map
            (fun e => vdiv e.2.1.1 e.2.2) = _
      rw [reduceByKey_pipeline _ _ hlenvals, List.map_map]
      refine List.map_congr_left ?_
      intro k _
      simp only [Function.comp_apply]
      rw [hS k]
      rfl
    · rw [hcloud]
      show ((reduceByKey (sortByKey ((voxelKeys pc voxel_size).zip
          (pc.points.zip (pc.normals.zip pc.colors))))).map
            (fun e => vdiv e.2.1.2.1 e.2.2)).map unitize = _
      rw [reduceByKey_pipeline _ _ hlenvals, List.map_map, List.map_map]
      refine List.map_congr_left ?_
      intro k _
      simp only [Function.comp_apply]
      rw [hS k]
      rfl
    · rw [hcloud]
      show (reduceByKey (sortByKey ((voxelKeys pc voxel_size).zip
          (pc.points.zip (pc.normals.zip pc.colors))))).map
            (fun e => vdiv e.2.1.2.2 e.2.2) = _
      rw [reduceByKey_pipeline _ _ hlenvals, List.map_map]
      refine List.map_congr_left ?_
      intro k _
      simp only [Function.comp_apply]
      rw [hS k]
      rfl
  · -- normals only
    have hlen_n : pc.normals.length = pc.points.length := by
      simp only [PointCloud.HasNormals, Bool.and_eq_true, decide_eq_true_eq] at hn
      exact hn.2
    have hlenvals : (voxelKeys pc voxel_size).length =
        (pc.points.zip pc.normals).length := by
      simp [List.length_zip, hlen_n, hka]
    have hS : ∀ k, ((((voxelKeys pc voxel_size).zip
          (pc.points.zip pc.normals)).filter
            (fun e => e.1 = k)).map (fun e => e.2)).sum =
        ((cellPoints pc voxel_size k).sum, (cellNormals pc voxel_size k).sum) := by
      intro k
      rw [filter_zip_sum_split (voxelKeys pc voxel_size) pc.points pc.normals k
        (by rw [hka]) (by rw [hlen_n])]
      rfl
    have hcloud : voxelDownSample pc voxel_size =
        { points := (reduceByKey (sortByKey ((voxelKeys pc voxel_size).zip
              (pc.points.zip pc.normals)))).map (fun e => vdiv e.2.1.1 e.2.2),
          normals := (reduceByKey (sortByKey ((voxelKeys pc voxel_size).zip
              (pc.points.zip pc.normals)))).map (fun e => vdiv e.2.1.2 e.2.2),
          colors := [] } := by
      unfold voxelDownSample
      rw [if_neg hng, if_neg hg2, if_pos hn, if_neg hc]
    refine ⟨?_, fun _ => ?_, fun hcc => absurd hcc hc⟩
    · rw [hcloud]
      show (reduceByKey (sortByKey ((voxelKeys pc voxel_size).zip
          (pc.points.zip pc.normals)))).map (fun e => vdiv e.2.1.1 e.2.2) = _
      rw [reduceByKey_pipeline _ _ hlenvals, List.map_map]
      refine List.map_congr_left ?_
      intro k _
      simp only [Function.comp_apply]
      rw [hS k]
      rfl
    · rw [hcloud]
      show ((reduceByKey (sortByKey ((voxelKeys pc voxel_size).zip
          (pc.points.zip pc.normals)))).map
            (fun e => vdiv e.2.1.2 e.2.2)).map unitize = _
      rw [reduceByKey_pipeline _ _ hlenvals, List.map_map, List.map_map]
      refine List.map_congr_left ?_
      intro k _
      simp only [Function.comp_apply]
      rw [hS k]
      rfl
  · -- colors only
    have hlen_c : pc.colors.length = pc.points.length := by
      simp only [PointCloud.HasColors, Bool.and_eq_true, decide_eq_true_eq] at hc
      exact hc.2
    have hlenvals : (voxelKeys pc voxel_size).length =
        (pc.points.zip pc.colors).length := by
      simp [List.length_zip, hlen_c, hka]
    have hS : ∀ k, ((((voxelKeys pc voxel_size).zip
          (pc.points.zip pc.colors)).filter
            (fun e => e.1 = k)).map (fun e => e.2)).sum =
        ((cellPoints pc voxel_size k).sum, (cellColors pc voxel_size k).sum) := by
      intro k
      rw [filter_zip_sum_split (voxelKeys pc voxel_size) pc.points pc.colors k
        (by rw [hka]) (by rw [hlen_c])]
      rfl
    have hcloud : voxelDownSample pc voxel_size =
        { points := (reduceByKey (sortByKey ((voxelKeys pc voxel_size).zip
              (pc.points.zip pc.colors)))).map (fun e => vdiv e.2.1.1 e.2.2),
          normals := [],
          colors := (reduceByKey (sortByKey ((voxelKeys pc voxel_size).zip
              (pc.points.zip pc.colors)))).map (fun e => vdiv e.2.1.2 e.2.2) } := by
      unfold voxelDownSample
      rw [if_neg hng, if_neg hg2, if_neg hn, if_pos hc]
    refine ⟨?_, fun hnn => absurd hnn hn, fun _ => ?_⟩
    · rw [hcloud]
      show (reduceByKey (sortByKey ((voxelKeys pc voxel_size).zip
          (pc.points.zip pc.colors)))).map (fun e => vdiv e.2.1.1 e.2.2) = _
      rw [reduceByKey_pipeline _ _ hlenvals, List.map_map]
      refine List.map_congr_left ?_
      intro k _
      simp only [Function.comp_apply]
      rw [hS k]
      rfl
    · rw [hcloud]
      show (reduceByKey (sortByKey ((voxelKeys pc voxel_size).zip
          (pc.points.zip pc.colors)))).map (fun e => vdiv e.2.1.2 e.2.2) = _
      rw [reduceByKey_pipeline _ _ hlenvals, List.map_map]
      refine List.map_congr_left ?_
      intro k _
      simp only [Function.comp_apply]
      rw [hS k]
      rfl
  · -- neither normals nor colors
    have hlenvals : (voxelKeys pc voxel_size).length = pc.points.length := hka
    have hcloud : voxelDownSample pc voxel_size =
        { points := (reduceByKey (sortByKey ((voxelKeys pc voxel_size).zip
              pc.points))).map (fun e => vdiv e.2.1 e.2.2),
          normals := [],
          colors := [] } := by
      unfold voxelDownSample
      rw [if_neg hng, if_neg hg2, if_neg hn, if_neg hc]
    refine ⟨?_, fun hnn => absurd hnn hn, fun hcc => absurd hcc hc⟩
    rw [hcloud]
    show (reduceByKey (sortByKey ((voxelKeys pc voxel_size).zip
        pc.points))).map (fun e => vdiv e.2.1 e.2.2) = _
    rw [reduceByKey_pipeline _ _ hlenvals, List.map_map]
    refine List.map_congr_left ?_
    intro k _
    simp only [Function.comp_apply]
    rfl

/-- The concrete cloud of the C1 witness: two of its three points share a
voxel cell at voxel_size = 1. -/
def pcC1 : PointCloud := ⟨[(0, 0, 0), (1, 0, 0), (1, 0, 0)], [], []⟩

/-- Witness for C1 at pcC1 with voxel_size = 1. -/
theorem voxelDownSample_witness :
    (0 : ℚ) < 1 ∧ voxelSizeTooSmall pcC1 1 = false ∧
      ((occupiedCells pcC1 1).Nodup ∧
        (∀ k, k ∈ occupiedCells pcC1 1 ↔ k ∈ voxelKeys pcC1 1) ∧
        (voxelDownSample pcC1 1).points =
          (occupiedCells pcC1 1).map (cellPointMean pcC1 1) ∧
        (pcC1.HasNormals = true →
          storedNormals (voxelDownSample pcC1 1) =
            (occupiedCells pcC1 1).map (fun k => unitize (cellNormalMean pcC1 1 k))) ∧
        (pcC1.HasColors = true →
          (voxelDownSample pcC1 1).colors =
            (occupiedCells pcC1 1).map (cellColorMean pcC1 1))) :=
  ⟨by norm_num, by with_unfolding_all decide,
    voxelDownSample_spec pcC1 1 (by norm_num) (by with_unfolding_all decide)⟩

/-- Quotient and remainder of a row-major encoded index. -/
theorem decode_mul_add (m a b : ℕ) (hm : 0 < m) (hb : b < m) :
    (a * m + b) / m = a ∧ (a * m + b) % m = b := by
  constructor
  · rw [show a * m + b = b + m * a by ring, Nat.add_mul_div_left _ _ hm,
      Nat.div_eq_of_lt hb, Nat.zero_add]
  · rw [show a * m + b = b + m * a by ring, Nat.add_mul_mod_self_left,
      Nat.mod_eq_of_lt hb]

/-- Row-major encoding stays below the grid size. -/
theorem encode_pair_lt (r1 r2 a b : ℕ) (ha : a < r1) (hb : b < r2) :
    a * r2 + b < r1 * r2 := by
  calc a * r2 + b < a * r2 + r2 := by omega
  _ = (a + 1) * r2 := by ring
  _ ≤ r1 * r2 := Nat.mul_le_mul_right _ (by omega)

/-- An in-range getD is a member of the list. -/
theorem getD_mem {α : Type} (l : List α) (i : ℕ) (d : α) (h : i < l.length) :
    l.getD i d ∈ l := by
  rw [List.getD_eq_getElem l d h]
  exact List.getElem_mem h

/-- Every surviving line of the 3D dense grid joins two in-range cells that
differ by one of the 26 offsets. -/
theorem createFromAABB3_lines_sound (minb maxb : Vec3) (res : ℕ × ℕ × ℕ)
    (_h1 : 0 < res.1) (h2 : 0 < res.2.1) (h3 : 0 < res.2.2) :
    ∀ l ∈ (createFromAABB3 minb maxb res).lines,
      ∃ x y z k : ℕ, x < res.1 ∧ y < res.2.1 ∧ z < res.2.2 ∧ k < 26 ∧
        voxelOffsets3.getD k (0, 0, 0) ∈ voxelOffsets3 ∧
        0 ≤ (x : ℤ) + (voxelOffsets3.getD k (0, 0, 0)).1 ∧
        (x : ℤ) + (voxelOffsets3.getD k (0, 0, 0)).1 < (res.1 : ℤ) ∧
        0 ≤ (y : ℤ) + (voxelOffsets3.getD k (0, 0, 0)).2.1 ∧
        (y : ℤ) + (voxelOffsets3.getD k (0, 0, 0)).2.1 < (res.2.1 : ℤ) ∧
        0 ≤ (z : ℤ) + (voxelOffsets3.getD k (0, 0, 0)).2.2 ∧
        (z : ℤ) + (voxelOffsets3.getD k (0, 0, 0)).2.2 < (res.2.2 : ℤ) ∧
        l = (gridIndex3 res (x : ℤ) (y : ℤ) (z : ℤ),
          gridIndex3 res ((x : ℤ) + (voxelOffsets3.getD k (0, 0, 0)).1)
            ((y : ℤ) + (voxelOffsets3.getD k (0, 0, 0)).2.1)
            ((z : ℤ) + (voxelOffsets3.getD k (0, 0, 0)).2.2)) := by
  intro l hl
  have hlines : (createFromAABB3 minb maxb res).lines =
      ((List.range (res.1 * res.2.1 * res.2.2 * 26)).map (denseLine3 res)).filter
        (fun l => !decide (l.1 < 0)) := rfl
  rw [hlines] at hl
  rcases List.mem_filter.mp hl with ⟨hmap, hposl⟩
  rcases List.mem_map.mp hmap with ⟨idx, hidxmem, hline⟩
  have hidx : idx < res.1 * res.2.1 * res.2.2 * 26 := List.mem_range.mp hidxmem
  have hm1 : 0 < res.2.1 * res.2.2 * 26 := by positivity
  have hm2 : 0 < res.2.2 * 26 := by positivity
  refine ⟨idx / (res.2.1 * res.2.2 * 26),
    idx % (res.2.1 * res.2.2 * 26) / (res.2.2 * 26),
    idx % (res.2.1 * res.2.2 * 26) % (res.2.2 * 26) / 26,
    idx % (res.2.1 * res.2.2 * 26) % (res.2.2 * 26) % 26,
    ?_, ?_, ?_, ?_, ?_, ?_⟩
  · exact (Nat.div_lt_iff_lt_mul hm1).mpr (by
      calc idx < res.1 * res.2.1 * res.2.2 * 26 := hidx
      _ = res.1 * (res.2.1 * res.2.2 * 26) := by ring)
  · have hr1 : idx % (res.2.1 * res.2.2 * 26) < res.2.1 * res.2.2 * 26 :=
      Nat.mod_lt idx hm1
    exact (Nat.div_lt_iff_lt_mul hm2).mpr (by
      calc idx % (res.2.1 * res.2.2 * 26) < res.2.1 * res.2.2 * 26 := hr1
      _ = res.2.1 * (res.2.2 * 26) := by ring)
  · have hr2 : idx % (res.2.1 * res.2.2 * 26) % (res.2.2 * 26) < res.2.2 * 26 :=
      Nat.mod_lt _ hm2
    exact (Nat.div_lt_iff_lt_mul (by norm_num)).mpr (by
      calc idx % (res.2.1 * res.2.2 * 26) % (res.2.2 * 26) < res.2.2 * 26 := hr2
      _ = res.2.2 * 26 := by ring)
  · exact Nat.mod_lt _ (by norm_num)
  · exact getD_mem voxelOffsets3 _ (0, 0, 0) (by
      simpa [voxelOffsets3] using Nat.mod_lt
        (idx % (res.2.1 * res.2.2 * 26) % (res.2.2 * 26)) (show 0 < 26 by norm_num))
  · simp only [denseLine3] at hline
    split at hline
    next hc =>
      rw [← hline] at hposl
      simp at hposl
    next hc =>
      push_neg at hc
      obtain ⟨c1, c2, c3, c4, c5, c6⟩ := hc
      exact ⟨c1, c2, c3, c4, c5, c6, hline.symm⟩

/-- Every in-range cell/offset pair whose neighbor stays on the 3D grid
contributes its line to the result. -/
theorem createFromAABB3_lines_complete (minb maxb : Vec3) (res : ℕ × ℕ × ℕ)
    (x y z k : ℕ) (hx : x < res.1) (hy : y < res.2.1) (hz : z < res.2.2)
    (hk : k < 26)
    (c1 : 0 ≤ (x : ℤ) + (voxelOffsets3.getD k (0, 0, 0)).1)
    (c2 : (x : ℤ) + (voxelOffsets3.getD k (0, 0, 0)).1 < (res.1 : ℤ))
    (c3 : 0 ≤ (y : ℤ) + (voxelOffsets3.getD k (0, 0, 0)).2.1)
    (c4 : (y : ℤ) + (voxelOffsets3.getD k (0, 0, 0)).2.1 < (res.2.1 : ℤ))
    (c5 : 0 ≤ (z : ℤ) + (voxelOffsets3.getD k (0, 0, 0)).2.2)
    (c6 : (z : ℤ) + (voxelOffsets3.getD k (0, 0, 0)).2.2 < (res.2.2 : ℤ)) :
    (gridIndex3 res (x : ℤ) (y : ℤ) (z : ℤ),
      gridIndex3 res ((x : ℤ) + (voxelOffsets3.getD k (0, 0, 0)).1)
        ((y : ℤ) + (voxelOffsets3.getD k (0, 0, 0)).2.1)
        ((z : ℤ) + (voxelOffsets3.getD k (0, 0, 0)).2.2)) ∈
      (createFromAABB3 minb maxb res).lines := by
  have hlines : (createFromAABB3 minb maxb res).lines =
      ((List.range (res.1 * res.2.1 * res.2.2 * 26)).map (denseLine3 res)).filter
        (fun l => !decide (l.1 < 0)) := rfl
  rw [hlines]
  have hm2 : 0 < res.2.2 * 26 := by omega
  have hm1 : 0 < res.2.1 * res.2.2 * 26 :=
    Nat.mul_pos (Nat.mul_pos (by omega) (by omega)) (by norm_num)
  have hrem2 : z * 26 + k < res.2.2 * 26 := encode_pair_lt res.2.2 26 z k hz hk
  have hrem1 : y * (res.2.2 * 26) + (z * 26 + k) < res.2.1 * res.2.2 * 26 := by
    have := encode_pair_lt res.2.1 (res.2.2 * 26) y (z * 26 + k) hy hrem2
    calc y * (res.2.2 * 26) + (z * 26 + k) < res.2.1 * (res.2.2 * 26) := this
    _ = res.2.1 * res.2.2 * 26 := by ring
  have hidxlt : x * (res.2.1 * res.2.2 * 26) + (y * (res.2.2 * 26) + (z * 26 + k)) <
      res.1 * res.2.1 * res.2.2 * 26 := by
    have := encode_pair_lt res.1 (res.2.1 * res.2.2 * 26) x
      (y * (res.2.2 * 26) + (z * 26 + k)) hx hrem1
    calc x * (res.2.1 * res.2.2 * 26) + (y * (res.2.2 * 26) + (z * 26 + k)) <
        res.1 * (res.2.1 * res.2.2 * 26) := this
    _ = res.1 * res.2.1 * res.2.2 * 26 := by ring
  have hd1 := decode_mul_add (res.2.1 * res.2.2 * 26) x
    (y * (res.2.2 * 26) + (z * 26 + k)) hm1 hrem1
  have hd2 := decode_mul_add (res.2.2 * 26) y (z * 26 + k) hm2 hrem2
  have hd3 := decode_mul_add 26 z k (by norm_num) hk
  have hval : denseLine3 res
      (x * (res.2.1 * res.2.2 * 26) + (y * (res.2.2 * 26) + (z * 26 + k))) =
      (gridIndex3 res (x : ℤ) (y : ℤ) (z : ℤ),
        gridIndex3 res ((x : ℤ) + (voxelOffsets3.getD k (0, 0, 0)).1)
          ((y : ℤ) + (voxelOffsets3.getD k (0, 0, 0)).2.1)
          ((z : ℤ) + (voxelOffsets3.getD k (0, 0, 0)).2.2)) := by
    simp only [denseLine3]
    rw [hd1.1, hd1.2, hd2.1, hd2.2, hd3.1, hd3.2]
    rw [if_neg (by push_neg; exact ⟨c1, by omega, c3, by omega, c5, by omega⟩)]
  refine List.mem_filter.mpr ⟨?_, ?_⟩
  · exact List.mem_map.mpr ⟨_, List.mem_range.mpr hidxlt, hval⟩
  · have hge : (0 : ℤ) ≤ gridIndex3 res (x : ℤ) (y : ℤ) (z : ℤ) := by
      unfold gridIndex3
      positivity
    simpa using hge

/-- Every surviving line of the 2D dense grid joins two in-range cells that
differ by one of the 8 offsets. -/
theorem createFromAABB2_lines_sound (minb maxb : Vec2) (res : ℕ × ℕ)
    (h2 : 0 < res.2) :
    ∀ l ∈ (createFromAABB2 minb maxb res).lines,
      ∃ x y k : ℕ, x < res.1 ∧ y < res.2 ∧ k < 8 ∧
        voxelOffsets2.getD k (0, 0) ∈ voxelOffsets2 ∧
        0 ≤ (x : ℤ) + (voxelOffsets2.getD k (0, 0)).1 ∧
        (x : ℤ) + (voxelOffsets2.getD k (0, 0)).1 < (res.1 : ℤ) ∧
        0 ≤ (y : ℤ) + (voxelOffsets2.getD k (0, 0)).2 ∧
        (y : ℤ) + (voxelOffsets2.getD k (0, 0)).2 < (res.2 : ℤ) ∧
        l = (gridIndex2 res (x : ℤ) (y : ℤ),
          gridIndex2 res ((x : ℤ) + (voxelOffsets2.getD k (0, 0)).1)
            ((y : ℤ) + (voxelOffsets2.getD k (0, 0)).2)) := by
  intro l hl
  have hlines : (createFromAABB2 minb maxb res).lines =
      ((List.range (res.1 * res.2 * 8)).map (denseLine2 res)).filter
        (fun l => !decide (l.1 < 0)) := rfl
  rw [hlines] at hl
  rcases List.mem_filter.mp hl with ⟨hmap, hposl⟩
  rcases List.mem_map.mp hmap with ⟨idx, hidxmem, hline⟩
  have hidx : idx < res.1 * res.2 * 8 := List.mem_range.mp hidxmem
  have hm1 : 0 < res.2 * 8 := by omega
  refine ⟨idx / (res.2 * 8), idx % (res.2 * 8) / 8, idx % (res.2 * 8) % 8,
    ?_, ?_, ?_, ?_⟩
  · exact (Nat.div_lt_iff_lt_mul hm1).mpr (by
      calc idx < res.1 * res.2 * 8 := hidx
      _ = res.1 * (res.2 * 8) := by ring)
  · have hr1 : idx % (res.2 * 8) < res.2 * 8 := Nat.mod_lt idx hm1
    exact (Nat.div_lt_iff_lt_mul (by norm_num)).mpr hr1
  · exact Nat.mod_lt _ (by norm_num)
  · refine ⟨getD_mem voxelOffsets2 _ (0, 0) (by
      simpa [voxelOffsets2] using Nat.mod_lt (idx % (res.2 * 8))
        (show 0 < 8 by norm_num)), ?_⟩
    simp only [denseLine2] at hline
    split at hline
    next hc =>
      rw [← hline] at hposl
      simp at hposl
    next hc =>
      push_neg at hc
      obtain ⟨c1, c2, c3, c4⟩ := hc
      exact ⟨c1, c2, c3, c4, hline.symm⟩

/-- Every in-range cell/offset pair whose neighbor stays on the 2D grid
contributes its line to the result. -/
theorem createFromAABB2_lines_complete (minb maxb : Vec2) (res : ℕ × ℕ)
    (x y k : ℕ) (hx : x < res.1) (hy : y < res.2) (hk : k < 8)
    (c1 : 0 ≤ (x : ℤ) + (voxelOffsets2.getD k (0, 0)).1)
    (c2 : (x : ℤ) + (voxelOffsets2.getD k (0, 0)).1 < (res.1 : ℤ))
    (c3 : 0 ≤ (y : ℤ) + (voxelOffsets2.getD k (0, 0)).2)
    (c4 : (y : ℤ) + (voxelOffsets2.getD k (0, 0)).2 < (res.2 : ℤ)) :
    (gridIndex2 res (x : ℤ) (y : ℤ),
      gridIndex2 res ((x : ℤ) + (voxelOffsets2.getD k (0, 0)).1)
        ((y : ℤ) + (voxelOffsets2.getD k (0, 0)).2)) ∈
      (createFromAABB2 minb maxb res).lines := by
  have hlines : (createFromAABB2 minb maxb res).lines =
      ((List.range (res.1 * res.2 * 8)).map (denseLine2 res)).filter
        (fun l => !decide (l.1 < 0)) := rfl
  rw [hlines]
  have hm1 : 0 < res.2 * 8 := by omega
  have hrem1 : y * 8 + k < res.2 * 8 := encode_pair_lt res.2 8 y k hy hk
  have hidxlt : x * (res.2 * 8) + (y * 8 + k) < res.1 * res.2 * 8 := by
    have := encode_pair_lt res.1 (res.2 * 8) x (y * 8 + k) hx hrem1
    calc x * (res.2 * 8) + (y * 8 + k) < res.1 * (res.2 * 8) := this
    _ = res.1 * res.2 * 8 := by ring
  have hd1 := decode_mul_add (res.2 * 8) x (y * 8 + k) hm1 hrem1
  have hd2 := decode_mul_add 8 y k (by norm_num) hk
  have hval : denseLine2 res (x * (res.2 * 8) + (y * 8 + k)) =
      (gridIndex2 res (x : ℤ) (y : ℤ),
        gridIndex2 res ((x : ℤ) + (voxelOffsets2.getD k (0, 0)).1)
          ((y : ℤ) + (voxelOffsets2.getD k (0, 0)).2)) := by
    simp only [denseLine2]
    rw [hd1.1, hd1.2, hd2.1, hd2.2]
    rw [if_neg (by push_neg; exact ⟨c1, by omega, c3, by omega⟩)]
  refine List.mem_filter.mpr ⟨?_, ?_⟩
  · exact List.mem_map.mpr ⟨_, List.mem_range.mpr hidxlt, hval⟩
  · have hge : (0 : ℤ) ≤ gridIndex2 res (x : ℤ) (y : ℤ) := by
      unfold gridIndex2
      positivity
    simpa using hge

/-- C10: CreateFromAxisAlignedBoundingBox builds resolutions.prod() grid
points at min_bound + index * step per axis (step = (max - min) /
resolutions), and its lines join exactly the in-range pairs of grid nodes
whose integer coordinates differ by one of the 26 neighbor offsets in 3D (8
in 2D); candidate edges leaving the grid are removed. -/
theorem createFromAABB_spec (minb3 maxb3 : Vec3) (res3 : ℕ × ℕ × ℕ)
    (minb2 maxb2 : Vec2) (res2 : ℕ × ℕ)
    (h1 : 0 < res3.1) (h2 : 0 < res3.2.1) (h3 : 0 < res3.2.2)
    (_g1 : 0 < res2.1) (g2 : 0 < res2.2) :
    voxelOffsets3.length = 26 ∧
    voxelOffsets2.length = 8 ∧
    (createFromAABB3 minb3 maxb3 res3).points.length =
      res3.1 * res3.2.1 * res3.2.2 ∧
    (∀ i, i < res3.1 * res3.2.1 * res3.2.2 →
      (createFromAABB3 minb3 maxb3 res3).points.getD i (0, 0, 0) =
        (minb3.1 + ((i / (res3.2.1 * res3.2.2) : ℕ) : ℚ) *
            (gridSteps3 minb3 maxb3 res3).1,
         minb3.2.1 + ((i % (res3.2.1 * res3.2.2) / res3.2.2 : ℕ) : ℚ) *
            (gridSteps3 minb3 maxb3 res3).2.1,
         minb3.2.2 + ((i % (res3.2.1 * res3.2.2) % res3.2.2 : ℕ) : ℚ) *
            (gridSteps3 minb3 maxb3 res3).2.2)) ∧
    (∀ l ∈ (createFromAABB3 minb3 maxb3 res3).lines,
      ∃ x y z k : ℕ, x < res3.1 ∧ y < res3.2.1 ∧ z < res3.2.2 ∧ k < 26 ∧
        voxelOffsets3.getD k (0, 0, 0) ∈ voxelOffsets3 ∧
        0 ≤ (x : ℤ) + (voxelOffsets3.getD k (0, 0, 0)).1 ∧
        (x : ℤ) + (voxelOffsets3.getD k (0, 0, 0)).1 < (res3.1 : ℤ) ∧
        0 ≤ (y : ℤ) + (voxelOffsets3.getD k (0, 0, 0)).2.1 ∧
        (y : ℤ) + (voxelOffsets3.getD k (0, 0, 0)).2.1 < (res3.2.1 : ℤ) ∧
        0 ≤ (z : ℤ) + (voxelOffsets3.getD k (0, 0, 0)).2.2 ∧
        (z : ℤ) + (voxelOffsets3.getD k (0, 0, 0)).2.2 < (res3.2.2 : ℤ) ∧
        l = (gridIndex3 res3 (x : ℤ) (y : ℤ) (z : ℤ),
          gridIndex3 res3 ((x : ℤ) + (voxelOffsets3.getD k (0, 0, 0)).1)
            ((y : ℤ) + (voxelOffsets3.getD k (0, 0, 0)).2.1)
            ((z : ℤ) + (voxelOffsets3.getD k (0, 0, 0)).2.2))) ∧
    (∀ x y z k : ℕ, x < res3.1 → y < res3.2.1 → z < res3.2.2 → k < 26 →
      0 ≤ (x : ℤ) + (voxelOffsets3.getD k (0, 0, 0)).1 →
      (x : ℤ) + (voxelOffsets3.getD k (0, 0, 0)).1 < (res3.1 : ℤ) →
      0 ≤ (y : ℤ) + (voxelOffsets3.getD k (0, 0, 0)).2.1 →
      (y : ℤ) + (voxelOffsets3.getD k (0, 0, 0)).2.1 < (res3.2.1 : ℤ) →
      0 ≤ (z : ℤ) + (voxelOffsets3.getD k (0, 0, 0)).2.2 →
      (z : ℤ) + (voxelOffsets3.getD k (0, 0, 0)).2.2 < (res3.2.2 : ℤ) →
      (gridIndex3 res3 (x : ℤ) (y : ℤ) (z : ℤ),
        gridIndex3 res3 ((x : ℤ) + (voxelOffsets3.getD k (0, 0, 0)).1)
          ((y : ℤ) + (voxelOffsets3.getD k (0, 0, 0)).2.1)
          ((z : ℤ) + (voxelOffsets3.getD k (0, 0, 0)).2.2)) ∈
        (createFromAABB3 minb3 maxb3 res3).lines) ∧
    (createFromAABB2 minb2 maxb2 res2).points.length = res2.1 * res2.2 ∧
    (∀ i, i < res2.1 * res2.2 →
      (createFromAABB2 minb2 maxb2 res2).points.getD i (0, 0) =
        (minb2.1 + ((i / res2.2 : ℕ) : ℚ) * (gridSteps2 minb2 maxb2 res2).1,
         minb2.2 + ((i % res2.2 : ℕ) : ℚ) * (gridSteps2 minb2 maxb2 res2).2)) ∧
    (∀ l ∈ (createFromAABB2 minb2 maxb2 res2).lines,
      ∃ x y k : ℕ, x < res2.1 ∧ y < res2.2 ∧ k < 8 ∧
        voxelOffsets2.getD k (0, 0) ∈ voxelOffsets2 ∧
        0 ≤ (x : ℤ) + (voxelOffsets2.getD k (0, 0)).1 ∧
        (x : ℤ) + (voxelOffsets2.getD k (0, 0)).1 < (res2.1 : ℤ) ∧
        0 ≤ (y : ℤ) + (voxelOffsets2.getD k (0, 0)).2 ∧
        (y : ℤ) + (voxelOffsets2.getD k (0, 0)).2 < (res2.2 : ℤ) ∧
        l = (gridIndex2 res2 (x : ℤ) (y : ℤ),
          gridIndex2 res2 ((x : ℤ) + (voxelOffsets2.getD k (0, 0)).1)
            ((y : ℤ) + (voxelOffsets2.getD k (0, 0)).2))) ∧
    (∀ x y k : ℕ, x < res2.1 → y < res2.2 → k < 8 →
      0 ≤ (x : ℤ) + (voxelOffsets2.getD k (0, 0)).1 →
      (x : ℤ) + (voxelOffsets2.getD k (0, 0)).1 < (res2.1 : ℤ) →
      0 ≤ (y : ℤ) + (voxelOffsets2.getD k (0, 0)).2 →
      (y : ℤ) + (voxelOffsets2.getD k (0, 0)).2 < (res2.2 : ℤ) →
      (gridIndex2 res2 (x : ℤ) (y : ℤ),
        gridIndex2 res2 ((x : ℤ) + (voxelOffsets2.getD k (0, 0)).1)
          ((y : ℤ) + (voxelOffsets2.getD k (0, 0)).2)) ∈
        (createFromAABB2 minb2 maxb2 res2).lines) := by
  refine ⟨by decide, by decide, ?_, ?_,
    createFromAABB3_lines_sound minb3 maxb3 res3 h1 h2 h3,
    fun x y z k hx hy hz hk c1 c2 c3 c4 c5 c6 =>
      createFromAABB3_lines_complete minb3 maxb3 res3 x y z k hx hy hz hk
        c1 c2 c3 c4 c5 c6,
    ?_, ?_,
    createFromAABB2_lines_sound minb2 maxb2 res2 g2,
    fun x y k hx hy hk c1 c2 c3 c4 =>
      createFromAABB2_lines_complete minb2 maxb2 res2 x y k hx hy hk
        c1 c2 c3 c4⟩
  · simp [createFromAABB3]
  · intro i hi
    have hp : (createFromAABB3 minb3 maxb3 res3).points =
        (List.range (res3.1 * res3.2.1 * res3.2.2)).map
          (densePoint3 res3 minb3 (gridSteps3 minb3 maxb3 res3)) := rfl
    rw [hp, List.getD_eq_getElem _ _ (by simpa using hi), List.getElem_map,
      List.getElem_range]
    rfl
  · simp [createFromAABB2]
  · intro i hi
    have hp : (createFromAABB2 minb2 maxb2 res2).points =
        (List.range (res2.1 * res2.2)).map
          (densePoint2 res2 minb2 (gridSteps2 minb2 maxb2 res2)) := rfl
    rw [hp, List.getD_eq_getElem _ _ (by simpa using hi), List.getElem_map,
      List.getElem_range]
    rfl

/-- Witness for C10 on the unit box with resolutions (2, 1, 1) and (1, 2). -/
theorem createFromAABB_witness :
    (0 < 2 ∧ 0 < 1 ∧ 0 < 1 ∧ 0 < 1 ∧ 0 < 2) ∧
      ((createFromAABB3 (0, 0, 0) (1, 1, 1) (2, 1, 1)).points.length = 2 * 1 * 1 ∧
        (createFromAABB2 (0, 0) (1, 1) (1, 2)).points.length = 1 * 2) :=
  ⟨⟨by norm_num, by norm_num, by norm_num, by norm_num, by norm_num⟩,
    (createFromAABB_spec (0, 0, 0) (1, 1, 1) (2, 1, 1) (0, 0) (1, 1) (1, 2)
        (by norm_num) (by norm_num) (by norm_num) (by norm_num) (by norm_num)).2.2.1,
    (createFromAABB_spec (0, 0, 0) (1, 1, 1) (2, 1, 1) (0, 0) (1, 1) (1, 2)
        (by norm_num) (by norm_num) (by norm_num) (by norm_num)
        (by norm_num)).2.2.2.2.2.2.1⟩

end Cupoch
